import Mathlib

/-!
A shallow embedding of `loopctl` (`src/loopctl/__main__.py`): the resource
compiler, deferred-reference resolution engine, and reconciliation/apply
orchestrator.  Python's module-level mutable dictionaries become an explicit
`Ctx` record threaded through every operation; fallible Python code (raised
exceptions) becomes `Except Err`; unbounded `while True` loops take a fuel
parameter, with fuel exhaustion modelling non-termination; `os.urandom` is
modelled by a supply of byte lists carried in the state.
-/

namespace Loopctl

/-- Python exceptions that the embedded code can raise.  `nonTermination` is
not a Python exception: it marks fuel exhaustion of a loop that the source
runs without any bound. -/
inductive Err where
  | valueError
  | keyError
  | typeError
  | nonTermination
deriving DecidableEq, Repr

/-- `ResourceReference` — `(kind, declaredName)` identity of a resource. -/
structure ResourceReference where
  kind : String
  name : String
deriving DecidableEq, Repr

/-- `ResourceId` — `(kind, idValue)` runtime identifier. -/
structure ResourceId where
  kind : String
  id : String
deriving DecidableEq, Repr

/-- `ConfigKey` — a single field of a resource's payload. -/
structure ConfigKey where
  reference : ResourceReference
  key : String
deriving DecidableEq, Repr

/-- A Python dict key as used by the source: spec dictionaries are keyed by
strings, but `get_generated_id` probes them with a `ConfigKey` object, so both
key shapes must be representable. -/
inductive PyKey where
  | str (s : String)
  | cfg (ck : ConfigKey)
deriving DecidableEq, Repr

/-- The deferred placeholders (`DeferredId` and its subclasses, `Remote`). -/
inductive DeferredV where
  | deferredId (configKey : ConfigKey)
  | apiKeyId (configKey : ConfigKey)
  | remote (resource_reference : ResourceReference) (remote : Option String)
deriving DecidableEq, Repr

/-- A Python value appearing in a parsed or compiled configuration. -/
inductive Value where
  | none
  | bool (b : Bool)
  | int (n : Int)
  | str (s : String)
  | list (xs : List Value)
  | dict (xs : List (PyKey × Value))
  | deferred (d : DeferredV)
deriving Repr

/-- Python truthiness. -/
def pyTruthy : Value → Bool
  | .none => false
  | .bool b => b
  | .int n => n != 0
  | .str s => s != ""
  | .list xs => !xs.isEmpty
  | .dict xs => !xs.isEmpty
  | .deferred _ => true

def Value.isDeferred : Value → Bool
  | .deferred _ => true
  | _ => false

/-- Implicit string view of a value where the source treats it as a `str`
without converting (e.g. a `name` field flowing into a `ResourceReference`).
Parsed documents carry strings in these positions. -/
def Value.asStr : Value → String
  | .str s => s
  | _ => ""

def Value.asList : Value → List Value
  | .list xs => xs
  | _ => []

/-- Association-list lookup (Python dict `get`, first binding wins; the dicts
built by the source never repeat a key). -/
def alistFind {κ ν : Type} [DecidableEq κ] : List (κ × ν) → κ → Option ν
  | [], _ => Option.none
  | (k₀, v₀) :: rest, k => if k₀ = k then some v₀ else alistFind rest k

/-- Python dict assignment: update in place or append. -/
def alistInsert {κ ν : Type} [DecidableEq κ] : List (κ × ν) → κ → ν → List (κ × ν)
  | [], k, v => [(k, v)]
  | (k₀, v₀) :: rest, k, v =>
    if k₀ = k then (k, v) :: rest else (k₀, v₀) :: alistInsert rest k v

/-- Mutate the value stored under a key (Python object mutation observed
through the index that holds the object). -/
def alistModify {κ ν : Type} [DecidableEq κ] (l : List (κ × ν)) (k : κ) (f : ν → ν) :
    List (κ × ν) :=
  l.map (fun p => if p.1 = k then (p.1, f p.2) else p)

/-- The parent link of a resource: a reference or a prior id. -/
inductive ParentRef where
  | ref (r : ResourceReference)
  | id (i : ResourceId)
deriving DecidableEq, Repr

/-- In-memory resource: `kind`, `name`, parent link, and the parts of
`self.config` that the source reads (`apiVersion`, `metadata.namespace`,
`spec`).  `valid` is the `ApiKey.valid` flag (class default `True`). -/
structure Resource where
  kind : String
  name : String
  apiVersion : String
  metaNamespace : Value
  spec : List (PyKey × Value)
  parent_ref_or_id : Option ParentRef
  valid : Bool := true
deriving Repr

def Resource.reference (r : Resource) : ResourceReference :=
  ⟨r.kind, r.name⟩

/-- `LocatedResource` — where a persisted resource lives on disk. -/
structure LocatedResource where
  path : String
  index : Nat
  resource : Resource
deriving Repr

/-- Network/filesystem effects performed by the orchestrator. -/
inductive Effect where
  | write (path : String)
  | put (url : String) (key : Option String) (status : Nat)
deriving DecidableEq, Repr

/-- The module-level mutable state: the four global indices, the entropy
supply standing for `os.urandom`, and the trace of outward effects. -/
structure Ctx where
  compiled_resources : List (ResourceReference × Resource)
  existing_resources : List (ResourceReference × LocatedResource)
  generated_values : List (ConfigKey × String)
  id_to_reference : List (ResourceId × ResourceReference)
  randomSupply : List (List Nat)
  trace : List Effect
deriving Repr

/-- Empty state at process start. -/
def Ctx.init (supply : List (List Nat)) : Ctx :=
  ⟨[], [], [], [], supply, []⟩

/-- Stateful fallible computation: explicit state passing plus exceptions. -/
def EC (α : Type) : Type := Ctx → Except Err (α × Ctx)

def ecPure {α : Type} (a : α) : EC α := fun s => .ok (a, s)

def ecThrow {α : Type} (e : Err) : EC α := fun _ => .error e

def ecBind {α β : Type} (m : EC α) (f : α → EC β) : EC β := fun s =>
  match m s with
  | .error e => .error e
  | .ok (a, s₁) => f a s₁

def ecOfExcept {α : Type} : Except Err α → EC α
  | .error e => ecThrow e
  | .ok a => ecPure a

/-- Hex digit for a nibble. -/
def hexDigit (n : Nat) : Char :=
  if n < 10 then Char.ofNat (48 + n) else Char.ofNat (87 + n % 16)

/-- `"{:02x}".format(byte)` for one byte. -/
def byteHex (b : Nat) : String :=
  String.mk [hexDigit ((b % 256) / 16), hexDigit (b % 16)]

/-- `"".join("{:02x}".format(byte) for byte in random_bytes)`. -/
def hexEncode (bytes : List Nat) : String :=
  (bytes.map byteHex).foldl (· ++ ·) ""

/-- `random_id`: hex-encode 20 fresh bytes from the entropy supply. -/
def random_id : EC String := fun s =>
  .ok (hexEncode (s.randomSupply.headD []),
       { s with randomSupply := s.randomSupply.tail })

/-- `get_generated_id`: resolution precedence for an identifier field.  Note
that the probes of a spec dictionary use the `ConfigKey` object itself as the
dict key (`config["spec"].get(configKey)`), exactly as the source does. -/
def get_generated_id (configKey : ConfigKey) (pfx : String) : EC Value := fun s =>
  let viaCompiled : Option Value :=
    match alistFind s.compiled_resources configKey.reference with
    | some created =>
      match alistFind created.spec (PyKey.cfg configKey) with
      | some r => if pyTruthy r && !r.isDeferred then some r else Option.none
      | Option.none => Option.none
    | Option.none => Option.none
  match viaCompiled with
  | some r => .ok (r, s)
  | Option.none =>
    match alistFind s.generated_values configKey with
    | some generated =>
      if generated ≠ "" then .ok (.str generated, s)
      else fallbackExistingOrFresh configKey pfx s
    | Option.none => fallbackExistingOrFresh configKey pfx s
where
  fallbackExistingOrFresh (configKey : ConfigKey) (pfx : String) : EC Value := fun s =>
    let viaExisting : Option Value :=
      match alistFind s.existing_resources configKey.reference with
      | some existing =>
        match alistFind existing.resource.spec (PyKey.cfg configKey) with
        | some r => if pyTruthy r then some r else Option.none
        | Option.none => Option.none
      | Option.none => Option.none
    match viaExisting with
    | some r => .ok (r, s)
    | Option.none =>
      (ecBind random_id (fun rid => fun s₁ =>
        let new_id := pfx ++ rid
        .ok (Value.str new_id,
             { s₁ with generated_values := alistInsert s₁.generated_values configKey new_id }))) s

/-- `get_resource_by_reference`: compiled first, then existing. -/
def get_resource_by_reference (s : Ctx) (reference : ResourceReference) : Option Resource :=
  match alistFind s.compiled_resources reference with
  | some created => some created
  | Option.none =>
    match alistFind s.existing_resources reference with
    | some existing => some existing.resource
    | Option.none => Option.none

/-- `require_resource_by_reference`: missing resources raise. -/
def require_resource_by_reference (reference : ResourceReference) : EC Resource := fun s =>
  match get_resource_by_reference s reference with
  | some r => .ok (r, s)
  | Option.none => .error .valueError

/-- The result of the `Resource.parent` property: Python returns `None` both
when there is no parent link and when the linked resource is missing; a parent
expressed as an id whose id is unknown raises `KeyError`. -/
inductive ParentLookup where
  | noParent
  | missing
  | res (r : Resource)
  | keyErr
deriving Repr

def parentOf (s : Ctx) (r : Resource) : ParentLookup :=
  match r.parent_ref_or_id with
  | Option.none => .noParent
  | some (.ref reference) =>
    match get_resource_by_reference s reference with
    | some p => .res p
    | Option.none => .missing
  | some (.id i) =>
    match alistFind s.id_to_reference i with
    | Option.none => .keyErr
    | some reference =>
      match get_resource_by_reference s reference with
      | some p => .res p
      | Option.none => .missing

/-- The in-loop namespace test of `Remote.link`: a truthy literal string, or a
truthy `Remote` carrying a preset remote, is returned; anything else sends the
walk to the parent. -/
def nsLiteralOf : Value → Option String
  | .str s => if s ≠ "" then some s else Option.none
  | .deferred (.remote _ (some rm)) => if rm ≠ "" then some rm else Option.none
  | _ => Option.none

/-- The `while True` walk of `Remote.link`, with fuel: `none` means the walk
was still running when the fuel ran out (the source has no bound). -/
def remoteLoop (s : Ctx) : Nat → Resource → Option (Except Err String)
  | 0, _ => Option.none
  | fuel + 1, r =>
    match nsLiteralOf r.metaNamespace with
    | some v => some (.ok v)
    | Option.none =>
      match parentOf s r with
      | .res p => remoteLoop s fuel p
      | .keyErr => some (.error .keyError)
      | .noParent => some (.error .valueError)
      | .missing => some (.error .valueError)

/-- `Remote.link`: preset remote short-circuit, then the upward walk. -/
def remoteLink (fuel : Nat) (reference : ResourceReference) (rm : Option String) :
    EC String := fun s =>
  if rm.getD "" ≠ "" then .ok (rm.getD "", s)
  else
    (ecBind (require_resource_by_reference reference) (fun r => fun s₁ =>
      match remoteLoop s₁ fuel r with
      | some (.ok v) => .ok (v, s₁)
      | some (.error e) => .error e
      | Option.none => .error .nonTermination)) s

/-- Register `id_to_reference[id] = reference` (`DeferredId.link`). -/
def registerIdRef (i : ResourceId) (reference : ResourceReference) : EC Unit := fun s =>
  .ok ((), { s with id_to_reference := alistInsert s.id_to_reference i reference })

/-- `DeferredValue.link` for each placeholder kind.  `DeferredId.link`
allocates with the `name-` prefix and registers the id; `ApiKeyId.link`
allocates with an empty prefix and registers nothing. -/
def DeferredV.linkV (fuel : Nat) : DeferredV → EC Value
  | .deferredId ck =>
    ecBind (get_generated_id ck (ck.reference.name ++ "-")) (fun result =>
      ecBind (registerIdRef ⟨ck.reference.kind, result.asStr⟩ ck.reference) (fun _ =>
        ecPure result))
  | .apiKeyId ck => get_generated_id ck ""
  | .remote reference rm =>
    ecBind (remoteLink fuel reference rm) (fun v => ecPure (Value.str v))

/-- `str(value)`: strings pass through, `None` prints as `"None"`, a deferred
value resolves via its `link` (its `__str__`).  Containers never reach `str`
in the modelled paths. -/
def pyToStr (fuel : Nat) : Value → EC String
  | .str s => ecPure s
  | .none => ecPure "None"
  | .bool b => ecPure (if b then "True" else "False")
  | .int n => ecPure (toString n)
  | .deferred d => ecBind (DeferredV.linkV fuel d) (fun v => ecPure v.asStr)
  | .list _ => ecPure ""
  | .dict _ => ecPure ""

/-- Pure `str()` over values read back from parsed documents, which contain no
deferred placeholders. -/
def pyStrPure : Value → String
  | .str s => s
  | .none => "None"
  | .bool b => if b then "True" else "False"
  | .int n => toString n
  | _ => ""

mutual

/-- The recursive `link(value)` resolver: deferred values resolve, lists and
dicts resolve element-wise, scalars pass through.  (A `Resource` never occurs
inside a config payload built by the source, so that branch has no image
here.) -/
def linkValue (fuel : Nat) : Value → EC Value
  | .deferred d => DeferredV.linkV fuel d
  | .list xs => ecBind (linkValues fuel xs) (fun ys => ecPure (Value.list ys))
  | .dict xs => ecBind (linkPairs fuel xs) (fun ys => ecPure (Value.dict ys))
  | v => ecPure v

def linkValues (fuel : Nat) : List Value → EC (List Value)
  | [] => ecPure []
  | v :: vs =>
    ecBind (linkValue fuel v) (fun v₁ =>
      ecBind (linkValues fuel vs) (fun vs₁ => ecPure (v₁ :: vs₁)))

def linkPairs (fuel : Nat) : List (PyKey × Value) → EC (List (PyKey × Value))
  | [] => ecPure []
  | (k, v) :: ps =>
    ecBind (linkValue fuel v) (fun v₁ =>
      ecBind (linkPairs fuel ps) (fun ps₁ => ecPure ((k, v₁) :: ps₁)))

end

/-- `Resource.link`: materialize the config and keep only truthy spec
fields. -/
def Resource.linkSelf (fuel : Nat) (r : Resource) : EC Value :=
  ecBind (linkValue fuel r.metaNamespace) (fun ns =>
    ecBind (linkPairs fuel r.spec) (fun spec₁ =>
      ecPure (Value.dict
        [(PyKey.str "apiVersion", Value.str r.apiVersion),
         (PyKey.str "kind", Value.str r.kind),
         (PyKey.str "metadata", Value.dict
            [(PyKey.str "name", Value.str r.name),
             (PyKey.str "namespace", ns)]),
         (PyKey.str "spec", Value.dict (spec₁.filter (fun p => pyTruthy p.2)))])))

/-- Which index holds an object yielded by `get_resources_by_type`; Python
mutation of the yielded object is observed through that index. -/
inductive Prov where
  | compiledAt (reference : ResourceReference)
  | existingAt (reference : ResourceReference)
deriving DecidableEq, Repr

/-- `get_resources_by_type`: compiled resources of the kind first, then
existing ones, each tagged with the index that owns the object. -/
def get_resources_by_type (s : Ctx) (kind : String) : List (Prov × Resource) :=
  (s.compiled_resources.filter (fun p => p.1.kind == kind)).map
      (fun p => (Prov.compiledAt p.1, p.2))
    ++ (s.existing_resources.filter (fun p => p.1.kind == kind)).map
      (fun p => (Prov.existingAt p.1, p.2.resource))

/-- `apikey.valid = False` on the object held in its index. -/
def markInvalidCtx (s : Ctx) (p : Prov) : Ctx :=
  match p with
  | .compiledAt reference =>
    let cr := alistModify s.compiled_resources reference (fun r => { r with valid := false })
    { s with compiled_resources := cr }
  | .existingAt reference =>
    let ex := alistModify s.existing_resources reference
      (fun l => { l with resource := { l.resource with valid := false } })
    { s with existing_resources := ex }

def markInvalid (p : Prov) : EC Unit := fun s =>
  .ok ((), markInvalidCtx s p)

/-- Validity of the object stored at a provenance, if it exists. -/
def provValid (s : Ctx) (p : Prov) : Option Bool :=
  match p with
  | .compiledAt reference => (alistFind s.compiled_resources reference).map (·.valid)
  | .existingAt reference =>
    (alistFind s.existing_resources reference).map (·.resource.valid)

/-- `config["spec"][key]`: `KeyError` when absent. -/
def dictGetItem (xs : List (PyKey × Value)) (k : PyKey) : EC Value :=
  match alistFind xs k with
  | some v => ecPure v
  | Option.none => ecThrow .keyError

/-- `apikey.key`: `str(self.config["spec"]["apiKey"])`, materializing a
deferred key value. -/
def resourceKeyStr (fuel : Nat) (k : Resource) : EC String :=
  ecBind (dictGetItem k.spec (PyKey.str "apiKey")) (pyToStr fuel)

/-- `get_client_parent_id`: id → reference → resource → its spec `parentId`
(present-or-absent test on the string key, then `str()` of whatever is
stored, `None` included). -/
def get_client_parent_id (fuel : Nat) (client_id : ResourceId) : EC (Option ResourceId) :=
  fun s =>
  match alistFind s.id_to_reference client_id with
  | Option.none => .ok (Option.none, s)
  | some client_reference =>
    match get_resource_by_reference s client_reference with
    | Option.none => .ok (Option.none, s)
    | some resource =>
      match alistFind resource.spec (PyKey.str "parentId") with
      | Option.none => .ok (Option.none, s)
      | some pv =>
        (ecBind (pyToStr fuel pv) (fun ps =>
          ecPure (some (ResourceId.mk "Client" ps)))) s

/-- The yield filter of the `apikeys_for_client` generator: skip invalid keys,
compare the materialized `clientId` with the target, and materialize the key
value of each hit (the source prints it at yield time). -/
def filterCands (fuel : Nat) (cidStr : String) :
    List (Prov × Resource) → EC (List (Prov × Resource))
  | [] => ecPure []
  | (p, k) :: rest =>
    if !k.valid then filterCands fuel cidStr rest
    else
      ecBind (dictGetItem k.spec (PyKey.str "clientId")) (fun cv =>
        ecBind (pyToStr fuel cv) (fun cstr =>
          if cstr ≠ cidStr then filterCands fuel cidStr rest
          else
            ecBind (resourceKeyStr fuel k) (fun _ =>
              ecBind (filterCands fuel cidStr rest) (fun tail =>
                ecPure ((p, k) :: tail)))))

/-- `apikeys_for_client`, the recursive credential search, with fuel standing
for Python's recursion limit (the parent chain can be cyclic).  The generator
is evaluated eagerly; allocation order can differ from lazy iteration but
allocated values agree through the memo table. -/
def apikeys_for_client (fuel : Nat) (client_id : ResourceId) :
    EC (List (Prov × Resource)) :=
  match fuel with
  | 0 => ecThrow .nonTermination
  | fuel + 1 =>
    fun s =>
      (ecBind (filterCands fuel client_id.id (get_resources_by_type s "ApiKey"))
        (fun own =>
          ecBind (get_client_parent_id fuel client_id) (fun pid =>
            match pid with
            | Option.none => ecPure own
            | some parent_id =>
              ecBind (apikeys_for_client fuel parent_id) (fun rest =>
                ecPure (own ++ rest))))) s

/-- `apikeys_for_resource`: walk the ownership chain up to a `Client`; a chain
that ends without one returns Python `None`. -/
def apikeys_for_resource (fuel : Nat) : Nat → Resource → EC (Option (List (Prov × Resource)))
  | 0, _ => ecThrow .nonTermination
  | walkFuel + 1, r =>
    if r.kind == "Client" then
      ecBind (dictGetItem r.spec (PyKey.str "clientId")) (fun cidv =>
        ecBind (pyToStr fuel cidv) (fun cid =>
          ecBind (apikeys_for_client fuel (ResourceId.mk "Client" cid)) (fun keys =>
            ecPure (some keys))))
    else
      fun s =>
        match parentOf s r with
        | .res p => apikeys_for_resource fuel walkFuel p s
        | .keyErr => .error .keyError
        | .noParent => .ok (Option.none, s)
        | .missing => .ok (Option.none, s)

/-- `put_with_key`: record the call and return the collaborator's status. -/
def recordPut (s : Ctx) (url : String) (key : Option String) (status : Nat) : Ctx :=
  { s with trace := s.trace ++ [Effect.put url key status] }

def put_with_key (oracle : String → Option String → Nat) (url : String)
    (key : Option String) : EC Nat := fun s =>
  .ok (oracle url key, recordPut s url key (oracle url key))

/-- The credential loop of `Resource.apply`: try each key, break on the first
non-401 status, else mark the key invalid and continue; `none` means the
iterable was exhausted (the `for`/`else` case). -/
def applyKeysLoop (oracle : String → Option String → Nat) (url : String) (fuel : Nat) :
    List (Prov × Resource) → EC (Option Nat)
  | [] => ecPure Option.none
  | (p, k) :: rest =>
    ecBind (resourceKeyStr fuel k) (fun kv =>
      ecBind (put_with_key oracle url (some kv)) (fun st =>
        if st ≠ 401 then ecPure (some st)
        else
          ecBind (markInvalid p) (fun _ =>
            applyKeysLoop oracle url fuel rest)))

/-- `Resource.apply` (non-ApiKey kinds): find candidate credentials, resolve
the namespace, materialize, push with the credential cascade, fall back to a
keyless put when the cascade is exhausted, succeed only on 200.  Iterating a
`None` candidate set is the `TypeError` the source would hit. -/
def resourceApply (oracle : String → Option String → Nat) (fuel : Nat)
    (self : Resource) : EC Bool :=
  ecBind (apikeys_for_resource fuel fuel self) (fun api_keys =>
    ecBind (pyToStr fuel self.metaNamespace) (fun url =>
      ecBind (Resource.linkSelf fuel self) (fun _compiled_config =>
        let fullUrl := url ++ "/policies/" ++ self.apiVersion ++ "/" ++ self.kind
        match api_keys with
        | Option.none => ecThrow .typeError
        | some keys =>
          ecBind (applyKeysLoop oracle fullUrl fuel keys) (fun st? =>
            ecBind (match st? with
                    | some st => ecPure st
                    | Option.none => put_with_key oracle fullUrl Option.none) (fun st =>
              if st ≠ 200 then ecPure false else ecPure true)))))

/-- `ApiKey.attach_to_client`: materialize, `PUT` under the key's namespace
with the offered credential, and return `True` no matter what the remote
service answered (the status check is commented out in the source). -/
def attach_to_client (oracle : String → Option String → Nat) (fuel : Nat)
    (self : Resource) (existing_key : String) : EC Bool :=
  ecBind (Resource.linkSelf fuel self) (fun config =>
    ecBind (match config with
            | .dict xs => dictGetItem xs (PyKey.str "metadata")
            | _ => ecThrow .typeError) (fun md =>
      ecBind (match md with
              | .dict xs => dictGetItem xs (PyKey.str "namespace")
              | _ => ecThrow .typeError) (fun nsv =>
        ecBind (pyToStr fuel nsv) (fun url =>
          ecBind (put_with_key oracle (url ++ "/policies/thatone.ai/v1/ApiKey")
                    (some existing_key)) (fun _ =>
            ecPure true)))))

/-- The candidate loop of `ApiKey.apply`; the invalidation branch reads
`existing_resources[apikey.reference].path`, raising `KeyError` for a
compiled-only key (dead code while `attach_to_client` returns `True`). -/
def apiKeyApplyLoop (oracle : String → Option String → Nat) (fuel : Nat)
    (self : Resource) : List (Prov × Resource) → EC Bool
  | [] =>
    ecBind (resourceKeyStr fuel self) (fun key =>
      ecBind (attach_to_client oracle fuel self key) (fun _ok =>
        ecPure false))
  | (p, k) :: rest =>
    ecBind (resourceKeyStr fuel k) (fun kv =>
      ecBind (attach_to_client oracle fuel self kv) (fun ok =>
        if ok then ecPure true
        else
          ecBind (markInvalid p) (fun _ => fun s =>
            match alistFind s.existing_resources k.reference with
            | Option.none => .error .keyError
            | some _ => apiKeyApplyLoop oracle fuel self rest s)))

/-- `ApiKey.apply`: cascade over the owning client's credentials, else
bootstrap with the key's own value — and return `False` in that case. -/
def apiKeyApply (oracle : String → Option String → Nat) (fuel : Nat)
    (self : Resource) : EC Bool :=
  ecBind (dictGetItem self.spec (PyKey.str "clientId")) (fun cidv =>
    ecBind (pyToStr fuel cidv) (fun cid =>
      ecBind (apikeys_for_client fuel (ResourceId.mk "Client" cid)) (fun keys =>
        apiKeyApplyLoop oracle fuel self keys)))

/-- Method dispatch of `resource.apply()`: `ApiKey` overrides `apply`. -/
def applyDispatch (oracle : String → Option String → Nat) (fuel : Nat)
    (r : Resource) : EC Bool :=
  if r.kind == "ApiKey" then apiKeyApply oracle fuel r else resourceApply oracle fuel r

/-- The push loop of `Commander.apply`: each compiled resource is announced
and applied; an exception is logged and re-raised, ending the loop.  Returns
the references that were attempted, the state reached, and the re-raised
exception if any. -/
def pushLoop (oracle : String → Option String → Nat) (fuel : Nat) :
    List Resource → Ctx → List ResourceReference × Ctx × Option Err
  | [], s => ([], s, Option.none)
  | r :: rest, s =>
    match applyDispatch oracle fuel r s with
    | .error e => ([r.reference], s, some e)
    | .ok (_, s₁) =>
      let out := pushLoop oracle fuel rest s₁
      (r.reference :: out.1, out.2)

/-- `validate_keys`: the key set must include every required key and contain
nothing outside required ∪ optional. -/
def validate_keys (cfg : List (String × Value)) (required optionalKeys : List String) : Bool :=
  required.all (fun k => (alistFind cfg k).isSome) &&
    cfg.all (fun p => required.contains p.1 || optionalKeys.contains p.1)

/-- View of a bundle member as a string-keyed dict; a non-dict member makes
the constructor fail with the uncaught attribute error of `config.keys()`. -/
def Value.asStrDict : Value → Option (List (String × Value))
  | .dict xs =>
    xs.mapM (fun p => match p.1 with
      | PyKey.str k => some (k, p.2)
      | _ => Option.none)
  | _ => Option.none

def clientIdD (name : String) : Value :=
  .deferred (.deferredId ⟨⟨"Client", name⟩, "clientId"⟩)

def groupIdD (name : String) : Value :=
  .deferred (.deferredId ⟨⟨"Group", name⟩, "groupId"⟩)

def loopIdD (name : String) : Value :=
  .deferred (.deferredId ⟨⟨"Loop", name⟩, "loopId"⟩)

def streamIdD (name : String) : Value :=
  .deferred (.deferredId ⟨⟨"Stream", name⟩, "streamId"⟩)

def clusterIdD (name : String) : Value :=
  .deferred (.deferredId ⟨⟨"Cluster", name⟩, "clusterId"⟩)

def apiKeyIdD (name : String) : Value :=
  .deferred (.apiKeyId ⟨⟨"ApiKey", name⟩, "apiKey"⟩)

/-- `[GroupId(x) for x in config.get(key, [])]`. -/
def groupIdListOf (cfg : List (String × Value)) (key : String) : Value :=
  .list ((((alistFind cfg key).getD (.list [])).asList).map (fun x => groupIdD x.asStr))

def clientIdListOf (cfg : List (String × Value)) (key : String) : Value :=
  .list ((((alistFind cfg key).getD (.list [])).asList).map (fun x => clientIdD x.asStr))

def dacMacClientOptional : List String :=
  ["remote", "parentName", "dacTags",
   "dacDefaultRead", "dacDefaultWrite", "dacDefaultExecute",
   "dacWhitelistRead", "dacWhitelistWrite", "dacWhitelistExecute",
   "dacBlacklistRead", "dacBlacklistWrite", "dacBlacklistExecute",
   "macTags", "macWhitelistRead", "macWhitelistWrite", "macWhitelistExecute",
   "macBlacklistRead", "macBlacklistWrite", "macBlacklistExecute"]

def dacNineOptional : List String :=
  ["dacDefaultRead", "dacDefaultWrite", "dacDefaultExecute",
   "dacWhitelistRead", "dacWhitelistWrite", "dacWhitelistExecute",
   "dacBlacklistRead", "dacBlacklistWrite", "dacBlacklistExecute"]

def dacSixOptional : List String :=
  ["dacWhitelistRead", "dacWhitelistWrite", "dacWhitelistExecute",
   "dacBlacklistRead", "dacBlacklistWrite", "dacBlacklistExecute"]

def groupIncludeOptional : List String :=
  ["public", "includeClients", "includeOrgs", "includeGroups",
   "excludeClients", "excludeOrgs", "excludeGroups"]

def clientStandaloneOptional : List String :=
  ["parentId", "dacTags",
   "dacDefaultRead", "dacDefaultWrite", "dacDefaultExecute",
   "dacWhitelistRead", "dacWhitelistWrite", "dacWhitelistExecute",
   "dacBlacklistRead", "dacBlacklistWrite", "dacBlacklistExecute",
   "macTags", "macWhitelistRead", "macWhitelistWrite", "macWhitelistExecute",
   "macBlacklistRead", "macBlacklistWrite", "macBlacklistExecute"]

/-- `ApiKey("ResourceDefs", config)`. -/
def mkApiKeyBundle (v : Value) : Except Err Resource :=
  match v.asStrDict with
  | Option.none => .error .typeError
  | some cfg =>
    if !validate_keys cfg ["name", "clientName"] [] then .error .valueError
    else
      let name := ((alistFind cfg "name").getD .none).asStr
      let clientName := ((alistFind cfg "clientName").getD .none).asStr
      .ok { kind := "ApiKey", name := name, apiVersion := "thatone.ai/v1",
            metaNamespace := .deferred (.remote ⟨"ApiKey", name⟩ Option.none),
            spec := [(PyKey.str "clientId", clientIdD clientName),
                     (PyKey.str "apiKey", apiKeyIdD name)],
            parent_ref_or_id := some (.ref ⟨"Client", clientName⟩) }

/-- `Client("ResourceDefs", config)`. -/
def mkClientBundle (v : Value) : Except Err Resource :=
  match v.asStrDict with
  | Option.none => .error .typeError
  | some cfg =>
    if !validate_keys cfg ["name"] dacMacClientOptional then .error .valueError
    else
      let name := ((alistFind cfg "name").getD .none).asStr
      let parentName := alistFind cfg "parentName"
      .ok { kind := "Client", name := name, apiVersion := "thatone.ai/v1",
            metaNamespace := .deferred (.remote ⟨"Client", name⟩
              ((alistFind cfg "remote").map Value.asStr)),
            spec := [(PyKey.str "clientId", clientIdD name),
                     (PyKey.str "parentId",
                       match parentName with
                       | some pn => clientIdD pn.asStr
                       | Option.none => Value.none),
                     (PyKey.str "dacTags", (alistFind cfg "dacTags").getD (.list [])),
                     (PyKey.str "dacDefaultRead", groupIdListOf cfg "dacDefaultRead"),
                     (PyKey.str "dacDefaultWrite", groupIdListOf cfg "dacDefaultWrite"),
                     (PyKey.str "dacDefaultExecute", groupIdListOf cfg "dacDefaultExecute"),
                     (PyKey.str "dacWhitelistRead", groupIdListOf cfg "dacWhitelistRead"),
                     (PyKey.str "dacWhitelistWrite", groupIdListOf cfg "dacWhitelistWrite"),
                     (PyKey.str "dacWhitelistExecute", groupIdListOf cfg "dacWhitelistExecute"),
                     (PyKey.str "dacBlacklistRead", groupIdListOf cfg "dacBlacklistRead"),
                     (PyKey.str "dacBlacklistWrite", groupIdListOf cfg "dacBlacklistWrite"),
                     (PyKey.str "dacBlacklistExecute", groupIdListOf cfg "dacBlacklistExecute"),
                     (PyKey.str "macTags", (alistFind cfg "macTags").getD (.list [])),
                     (PyKey.str "macWhitelistRead", groupIdListOf cfg "macWhitelistRead"),
                     (PyKey.str "macWhitelistWrite", groupIdListOf cfg "macWhitelistWrite"),
                     (PyKey.str "macWhitelistExecute", groupIdListOf cfg "macWhitelistExecute"),
                     (PyKey.str "macBlacklistRead", groupIdListOf cfg "macBlacklistRead"),
                     (PyKey.str "macBlacklistWrite", groupIdListOf cfg "macBlacklistWrite"),
                     (PyKey.str "macBlacklistExecute", groupIdListOf cfg "macBlacklistExecute")],
            parent_ref_or_id :=
              match parentName with
              | some pn => some (.ref ⟨"Client", pn.asStr⟩)
              | Option.none => Option.none }

/-- `Group("ResourceDefs", config)`. -/
def mkGroupBundle (v : Value) : Except Err Resource :=
  match v.asStrDict with
  | Option.none => .error .typeError
  | some cfg =>
    if !validate_keys cfg ["name", "owner"] groupIncludeOptional then .error .valueError
    else
      let name := ((alistFind cfg "name").getD .none).asStr
      let owner := ((alistFind cfg "owner").getD .none).asStr
      .ok { kind := "Group", name := name, apiVersion := "thatone.ai/v1",
            metaNamespace := .deferred (.remote ⟨"Group", name⟩ Option.none),
            spec := [(PyKey.str "ownerId", clientIdD owner),
                     (PyKey.str "groupId", groupIdD name),
                     (PyKey.str "public", (alistFind cfg "public").getD (.bool false)),
                     (PyKey.str "includeClients", clientIdListOf cfg "includeClients"),
                     (PyKey.str "includeOrgs", clientIdListOf cfg "includeOrgs"),
                     (PyKey.str "includeGroups",
                       .list ((((alistFind cfg "includeGroups").getD (.list [])).asList).map
                         (fun x => groupIdD x.asStr))),
                     (PyKey.str "excludeClients", clientIdListOf cfg "excludeClients"),
                     (PyKey.str "excludeOrgs", clientIdListOf cfg "excludeOrgs"),
                     (PyKey.str "excludeGroups",
                       .list ((((alistFind cfg "excludeGroups").getD (.list [])).asList).map
                         (fun x => groupIdD x.asStr)))],
            parent_ref_or_id := some (.ref ⟨"Client", owner⟩) }

/-- `Loop("ResourceDefs", config)`. -/
def mkLoopBundle (v : Value) : Except Err Resource :=
  match v.asStrDict with
  | Option.none => .error .typeError
  | some cfg =>
    if !validate_keys cfg ["name", "owner"] dacNineOptional then .error .valueError
    else
      let name := ((alistFind cfg "name").getD .none).asStr
      let owner := ((alistFind cfg "owner").getD .none).asStr
      .ok { kind := "Loop", name := name, apiVersion := "thatone.ai/v1",
            metaNamespace := .deferred (.remote ⟨"Loop", name⟩ Option.none),
            spec := [(PyKey.str "ownerId", clientIdD owner),
                     (PyKey.str "loopId", loopIdD name),
                     (PyKey.str "dacDefaultRead", groupIdListOf cfg "dacDefaultRead"),
                     (PyKey.str "dacDefaultWrite", groupIdListOf cfg "dacDefaultWrite"),
                     (PyKey.str "dacDefaultExecute", groupIdListOf cfg "dacDefaultExecute"),
                     (PyKey.str "dacWhitelistRead", groupIdListOf cfg "dacWhitelistRead"),
                     (PyKey.str "dacWhitelistWrite", groupIdListOf cfg "dacWhitelistWrite"),
                     (PyKey.str "dacWhitelistExecute", groupIdListOf cfg "dacWhitelistExecute"),
                     (PyKey.str "dacBlacklistRead", groupIdListOf cfg "dacBlacklistRead"),
                     (PyKey.str "dacBlacklistWrite", groupIdListOf cfg "dacBlacklistWrite"),
                     (PyKey.str "dacBlacklistExecute", groupIdListOf cfg "dacBlacklistExecute")],
            parent_ref_or_id := some (.ref ⟨"Client", owner⟩) }

/-- `Stream("ResourceDefs", config)`. -/
def mkStreamBundle (v : Value) : Except Err Resource :=
  match v.asStrDict with
  | Option.none => .error .typeError
  | some cfg =>
    if !validate_keys cfg ["name", "loop"] dacSixOptional then .error .valueError
    else
      let name := ((alistFind cfg "name").getD .none).asStr
      let loopName := ((alistFind cfg "loop").getD .none).asStr
      .ok { kind := "Stream", name := name, apiVersion := "thatone.ai/v1",
            metaNamespace := .deferred (.remote ⟨"Stream", name⟩ Option.none),
            spec := [(PyKey.str "loopId", loopIdD loopName),
                     (PyKey.str "streamId", streamIdD name),
                     (PyKey.str "dacWhitelistRead", groupIdListOf cfg "dacWhitelistRead"),
                     (PyKey.str "dacWhitelistWrite", groupIdListOf cfg "dacWhitelistWrite"),
                     (PyKey.str "dacWhitelistExecute", groupIdListOf cfg "dacWhitelistExecute"),
                     (PyKey.str "dacBlacklistRead", groupIdListOf cfg "dacBlacklistRead"),
                     (PyKey.str "dacBlacklistWrite", groupIdListOf cfg "dacBlacklistWrite"),
                     (PyKey.str "dacBlacklistExecute", groupIdListOf cfg "dacBlacklistExecute")],
            parent_ref_or_id := some (.ref ⟨"Loop", loopName⟩) }

/-- `Cluster("ResourceDefs", config)`. -/
def mkClusterBundle (v : Value) : Except Err Resource :=
  match v.asStrDict with
  | Option.none => .error .typeError
  | some cfg =>
    if !validate_keys cfg ["name", "owner"] dacNineOptional then .error .valueError
    else
      let name := ((alistFind cfg "name").getD .none).asStr
      let owner := ((alistFind cfg "owner").getD .none).asStr
      .ok { kind := "Cluster", name := name, apiVersion := "thatone.ai/v1",
            metaNamespace := .deferred (.remote ⟨"Cluster", name⟩ Option.none),
            spec := [(PyKey.str "ownerId", clientIdD owner),
                     (PyKey.str "clusterId", clusterIdD name),
                     (PyKey.str "dacDefaultRead", groupIdListOf cfg "dacDefaultRead"),
                     (PyKey.str "dacDefaultWrite", groupIdListOf cfg "dacDefaultWrite"),
                     (PyKey.str "dacDefaultExecute", groupIdListOf cfg "dacDefaultExecute"),
                     (PyKey.str "dacWhitelistRead", groupIdListOf cfg "dacWhitelistRead"),
                     (PyKey.str "dacWhitelistWrite", groupIdListOf cfg "dacWhitelistWrite"),
                     (PyKey.str "dacWhitelistExecute", groupIdListOf cfg "dacWhitelistExecute"),
                     (PyKey.str "dacBlacklistRead", groupIdListOf cfg "dacBlacklistRead"),
                     (PyKey.str "dacBlacklistWrite", groupIdListOf cfg "dacBlacklistWrite"),
                     (PyKey.str "dacBlacklistExecute", groupIdListOf cfg "dacBlacklistExecute")],
            parent_ref_or_id := some (.ref ⟨"Client", owner⟩) }

/-- A parsed document with the envelope fields the readers guarantee
(`apiVersion`, `kind`, `metadata.name`); `metadata.namespace` may be absent,
`spec` defaults to an empty mapping. -/
structure Doc where
  apiVersion : String
  kind : String
  metaName : String
  metaNamespace : Option Value := Option.none
  spec : List (String × Value) := []
deriving Repr

def Doc.specKeys (d : Doc) : List (PyKey × Value) :=
  d.spec.map (fun p => (PyKey.str p.1, p.2))

def Doc.toValue (d : Doc) : Value :=
  .dict [(PyKey.str "apiVersion", .str d.apiVersion),
         (PyKey.str "kind", .str d.kind),
         (PyKey.str "metadata", .dict
           ((PyKey.str "name", Value.str d.metaName) ::
             (match d.metaNamespace with
              | some ns => [(PyKey.str "namespace", ns)]
              | Option.none => []))),
         (PyKey.str "spec", .dict (d.specKeys))]

/-- `ApiKey("ApiKey", config)` (standalone mode). -/
def mkApiKeyStandalone (d : Doc) : EC Resource := fun s =>
  if d.metaNamespace.isNone then .error .valueError
  else if !validate_keys d.spec ["clientId", "apiKey"] [] then .error .valueError
  else
    .ok ({ kind := "ApiKey", name := d.metaName, apiVersion := d.apiVersion,
           metaNamespace := d.metaNamespace.getD .none,
           spec := d.specKeys, parent_ref_or_id := Option.none }, s)

/-- `Client("Client", config)`: registers its id and links its parent by
id when a truthy `parentId` is present. -/
def mkClientStandalone (d : Doc) : EC Resource := fun s =>
  if d.metaNamespace.isNone then .error .valueError
  else if !validate_keys d.spec ["clientId"] clientStandaloneOptional
    then .error .valueError
  else
    let clientId := pyStrPure ((alistFind d.spec "clientId").getD .none)
    let r : Resource :=
      { kind := "Client", name := d.metaName, apiVersion := d.apiVersion,
        metaNamespace := d.metaNamespace.getD .none, spec := d.specKeys,
        parent_ref_or_id :=
          match alistFind d.spec "parentId" with
          | some pv =>
            if pyTruthy pv then some (.id ⟨"Client", pyStrPure pv⟩) else Option.none
          | Option.none => Option.none }
    let idr := alistInsert s.id_to_reference ⟨"Client", clientId⟩ r.reference
    .ok (r, { s with id_to_reference := idr })

/-- `Group("Group", config)`. -/
def mkGroupStandalone (d : Doc) : EC Resource := fun s =>
  if d.metaNamespace.isNone then .error .valueError
  else if !validate_keys d.spec ["ownerId", "groupId"] groupIncludeOptional
    then .error .valueError
  else
    let groupId := pyStrPure ((alistFind d.spec "groupId").getD .none)
    let ownerId := pyStrPure ((alistFind d.spec "ownerId").getD .none)
    let r : Resource :=
      { kind := "Group", name := d.metaName, apiVersion := d.apiVersion,
        metaNamespace := d.metaNamespace.getD .none, spec := d.specKeys,
        parent_ref_or_id := some (.id ⟨"Client", ownerId⟩) }
    let idr := alistInsert s.id_to_reference ⟨"Group", groupId⟩ r.reference
    .ok (r, { s with id_to_reference := idr })

/-- `Loop("Loop", config)`. -/
def mkLoopStandalone (d : Doc) : EC Resource := fun s =>
  if d.metaNamespace.isNone then .error .valueError
  else if !validate_keys d.spec ["ownerId", "loopId"] dacNineOptional
    then .error .valueError
  else
    let loopId := pyStrPure ((alistFind d.spec "loopId").getD .none)
    let ownerId := pyStrPure ((alistFind d.spec "ownerId").getD .none)
    let r : Resource :=
      { kind := "Loop", name := d.metaName, apiVersion := d.apiVersion,
        metaNamespace := d.metaNamespace.getD .none, spec := d.specKeys,
        parent_ref_or_id := some (.id ⟨"Client", ownerId⟩) }
    let idr := alistInsert s.id_to_reference ⟨"Loop", loopId⟩ r.reference
    .ok (r, { s with id_to_reference := idr })

/-- `Stream("Stream", config)`. -/
def mkStreamStandalone (d : Doc) : EC Resource := fun s =>
  if d.metaNamespace.isNone then .error .valueError
  else if !validate_keys d.spec ["loopId", "streamId"] dacSixOptional
    then .error .valueError
  else
    let streamId := pyStrPure ((alistFind d.spec "streamId").getD .none)
    let loopId := pyStrPure ((alistFind d.spec "loopId").getD .none)
    let r : Resource :=
      { kind := "Stream", name := d.metaName, apiVersion := d.apiVersion,
        metaNamespace := d.metaNamespace.getD .none, spec := d.specKeys,
        parent_ref_or_id := some (.id ⟨"Loop", loopId⟩) }
    let idr := alistInsert s.id_to_reference ⟨"Stream", streamId⟩ r.reference
    .ok (r, { s with id_to_reference := idr })

/-- `Cluster("Cluster", config)`. -/
def mkClusterStandalone (d : Doc) : EC Resource := fun s =>
  if d.metaNamespace.isNone then .error .valueError
  else if !validate_keys d.spec ["ownerId", "clusterId"] dacNineOptional
    then .error .valueError
  else
    let clusterId := pyStrPure ((alistFind d.spec "clusterId").getD .none)
    let ownerId := pyStrPure ((alistFind d.spec "ownerId").getD .none)
    let r : Resource :=
      { kind := "Cluster", name := d.metaName, apiVersion := d.apiVersion,
        metaNamespace := d.metaNamespace.getD .none, spec := d.specKeys,
        parent_ref_or_id := some (.id ⟨"Client", ownerId⟩) }
    let idr := alistInsert s.id_to_reference ⟨"Cluster", clusterId⟩ r.reference
    .ok (r, { s with id_to_reference := idr })

/-- One bundle section: build each member; a schema failure (`ValueError`)
sets the error flag and continues, anything else propagates. -/
def compileMembers (mk : Value → Except Err Resource) :
    List Value → Except Err (List Resource × Bool)
  | [] => .ok ([], false)
  | v :: vs =>
    match mk v with
    | .ok r => (compileMembers mk vs).map (fun p => (r :: p.1, p.2))
    | .error .valueError => (compileMembers mk vs).map (fun p => (p.1, true))
    | .error e => .error e

def sectionMembers (d : Doc) (sect : String) : List Value :=
  ((alistFind d.spec sect).getD (.list [])).asList

/-- `compile_resourcedefs`: expand a bundle in the fixed section order; raise
one aggregate `ValueError` after all members were attempted. -/
def compile_resourcedefs (d : Doc) : Except Err (List Resource) := do
  let e₀ := !validate_keys d.spec []
    ["apikeys", "groups", "clients", "loops", "streams", "clusters"]
  let (aks, e₁) ← compileMembers mkApiKeyBundle (sectionMembers d "apikeys")
  let (cls, e₂) ← compileMembers mkClientBundle (sectionMembers d "clients")
  let (gps, e₃) ← compileMembers mkGroupBundle (sectionMembers d "groups")
  let (lps, e₄) ← compileMembers mkLoopBundle (sectionMembers d "loops")
  let (sts, e₅) ← compileMembers mkStreamBundle (sectionMembers d "streams")
  let (cts, e₆) ← compileMembers mkClusterBundle (sectionMembers d "clusters")
  if e₀ || e₁ || e₂ || e₃ || e₄ || e₅ || e₆ then .error .valueError
  else .ok (aks ++ cls ++ gps ++ lps ++ sts ++ cts)

/-- `compile_config`: dispatch by kind. -/
def compile_config (d : Doc) : EC (List Resource) :=
  match d.kind with
  | "ResourceDefs" => ecOfExcept (compile_resourcedefs d)
  | "ApiKey" => ecBind (mkApiKeyStandalone d) (fun r => ecPure [r])
  | "Group" => ecBind (mkGroupStandalone d) (fun r => ecPure [r])
  | "Client" => ecBind (mkClientStandalone d) (fun r => ecPure [r])
  | "Loop" => ecBind (mkLoopStandalone d) (fun r => ecPure [r])
  | "Stream" => ecBind (mkStreamStandalone d) (fun r => ecPure [r])
  | "Cluster" => ecBind (mkClusterStandalone d) (fun r => ecPure [r])
  | _ => ecThrow .valueError

def knownKinds : List String :=
  ["ResourceDefs", "ApiKey", "Client", "Group", "Loop", "Stream", "Cluster"]

def is_itl_resource (d : Doc) : Bool :=
  d.apiVersion == "thatone.ai/v1" && knownKinds.contains d.kind

/-- Which resource kind a bundle spec section declares. -/
def bundleSectionKind : String → Option String
  | "apikeys" => some "ApiKey"
  | "clients" => some "Client"
  | "groups" => some "Group"
  | "loops" => some "Loop"
  | "streams" => some "Stream"
  | "clusters" => some "Cluster"
  | _ => Option.none

/-- `member["name"]` for one bundle member. -/
def memberName (v : Value) : Except Err String :=
  match v with
  | .dict xs =>
    match alistFind xs (PyKey.str "name") with
    | some nv => .ok nv.asStr
    | Option.none => .error .keyError
  | _ => .error .typeError

def memberNames (kind : String) : List Value → Except Err (List (String × String))
  | [] => .ok []
  | v :: vs => do
    let n ← memberName v
    let rest ← memberNames kind vs
    .ok ((kind, n) :: rest)

def expandSections : List (String × Value) → Except Err (List (String × String))
  | [] => .ok []
  | (sect, v) :: rest =>
    match bundleSectionKind sect with
    | Option.none => .error .valueError
    | some kind => do
      let ns ← memberNames kind v.asList
      let more ← expandSections rest
      .ok (ns ++ more)

/-- `expand_keys`: the `(kind, declaredName)` keys a document declares; a
`ResourceDefs` document expands its sections, an unknown section raises. -/
def expand_keys (d : Doc) : Except Err (List (String × String)) :=
  if d.kind ≠ "ResourceDefs" then .ok [(d.kind, d.metaName)]
  else expandSections d.spec

/-- The `(key, sourceFile)` occurrence pairs counted by `check_duplicates`. -/
def scanPairs : List (String × Nat × Doc) → Except Err (List ((String × String) × String))
  | [] => .ok []
  | (fp, _, d) :: rest =>
    if !is_itl_resource d then scanPairs rest
    else do
      let ks ← expand_keys d
      let more ← scanPairs rest
      .ok (ks.map (fun k => (k, fp)) ++ more)

/-- Keep the first occurrence of each element (Python dict insertion order). -/
def dedupKeepFirst {α : Type} [DecidableEq α] : List α → List α
  | [] => []
  | a :: l => a :: (dedupKeepFirst l).filter (fun x => x ≠ a)

/-- Total occurrence count of a key across all files. -/
def countKey (pairs : List ((String × String) × String)) (k : String × String) : Nat :=
  (pairs.filter (fun p => p.1 = k)).length

/-- The duplicate report: each key occurring more than once, with the distinct
files that declare it. -/
def dupReports (pairs : List ((String × String) × String)) :
    List ((String × String) × List String) :=
  (dedupKeepFirst (pairs.map (·.1))).filterMap (fun k =>
    if 1 < countKey pairs k then
      some (k, dedupKeepFirst ((pairs.filter (fun p => p.1 = k)).map (·.2)))
    else Option.none)

/-- What `check_duplicates` can raise: an expansion failure, or the single
aggregate failure carrying every printed duplicate report. -/
inductive CheckErr where
  | expand (e : Err)
  | duplicates (reports : List ((String × String) × List String))
deriving DecidableEq, Repr

/-- `check_duplicates`, with the raised error refined into its cause. -/
def checkDuplicatesCore (configs : List (String × Nat × Doc)) : Except CheckErr Unit :=
  match scanPairs configs with
  | .error e => .error (.expand e)
  | .ok pairs =>
    let reports := dupReports pairs
    if reports.isEmpty then .ok () else .error (.duplicates reports)

def check_duplicates (configs : List (String × Nat × Doc)) : EC Unit :=
  match checkDuplicatesCore configs with
  | .ok _ => ecPure ()
  | .error (.expand e) => ecThrow e
  | .error (.duplicates _) => ecThrow .valueError

/-- `suffix or ""`: Python's falsy-or, producing a string for `0` and the
integer itself otherwise. -/
inductive PyStrOrInt where
  | s (v : String)
  | i (v : Nat)
deriving DecidableEq, Repr

def suffixOrEmpty (n : Nat) : PyStrOrInt :=
  if n = 0 then .s "" else .i n

/-- Python `str.__add__`: concatenating a non-string raises `TypeError`. -/
def strConcat (a : String) : PyStrOrInt → Except Err String
  | .s b => .ok (a ++ b)
  | .i _ => .error .typeError

def createResourcePathLoop (world : List String) (pfx : String) :
    Nat → Nat → Except Err String
  | _, 0 => .error .nonTermination
  | sfx, fuel + 1 => do
    let base ← strConcat pfx (suffixOrEmpty sfx)
    let result := base ++ ".yaml"
    if world.contains result then createResourcePathLoop world pfx (sfx + 1) fuel
    else .ok result

/-- `create_resource_path`: `folder/kind/name` plus a suffix-probing loop over
the set of paths that exist on disk. -/
def create_resource_path (world : List String) (folder kindStr nameStr : String)
    (fuel : Nat) : Except Err String :=
  createResourcePathLoop world (folder ++ "/" ++ kindStr ++ "/" ++ nameStr) 0 fuel

/-- The compiled-resource registration of `compile_configs`, honouring the
`already_compiled` skip set. -/
def addResources : List Resource → Ctx → List ResourceReference →
    Ctx × List ResourceReference
  | [], s, already => (s, already)
  | r :: rs, s, already =>
    if already.contains r.reference then addResources rs s already
    else
      addResources rs
        { s with compiled_resources := alistInsert s.compiled_resources r.reference r }
        (already ++ [r.reference])

def compileConfigsLoop : List (String × Nat × Doc) → List ResourceReference → Bool →
    EC Bool
  | [], _, err => ecPure err
  | (_, _, d) :: rest, already, err => fun s =>
    match compile_config d s with
    | .error .valueError => compileConfigsLoop rest already true s
    | .error e => .error e
    | .ok (resources, s₁) =>
      let (s₂, already₂) := addResources resources s₁ already
      compileConfigsLoop rest already₂ err s₂

/-- `compile_configs`: compile every desired document, recording an error
flag for schema failures, and raise one aggregate error at the end. -/
def compile_configs (new : List (String × Nat × Doc)) : EC Unit :=
  ecBind (compileConfigsLoop new [] false) (fun err =>
    if err then ecThrow .valueError else ecPure ())

def mapLocationsLoop : List (String × Nat × Doc) → Bool → EC Bool
  | [], err => ecPure err
  | (path, i, d) :: rest, err => fun s =>
    if !is_itl_resource d then mapLocationsLoop rest err s
    else if d.kind == "ResourceDefs" then mapLocationsLoop rest err s
    else
      match compile_config d s with
      | .error .valueError => mapLocationsLoop rest true s
      | .error e => .error e
      | .ok (resources, s₁) =>
        match resources.head? with
        | Option.none => .error .valueError
        | some resource =>
          if (alistFind s₁.existing_resources resource.reference).isSome then
            mapLocationsLoop rest true s₁
          else
            let ex := alistInsert s₁.existing_resources resource.reference
              ⟨path, i, resource⟩
            mapLocationsLoop rest err { s₁ with existing_resources := ex }

/-- `map_config_locations`: the locate pass over persisted documents; a
reference seen twice is a reconciliation conflict, raised in aggregate. -/
def map_config_locations (prior : List (String × Nat × Doc)) : EC Unit :=
  ecBind (mapLocationsLoop prior false) (fun err =>
    if err then ecThrow .valueError else ecPure ())

/-- Add a path to the `updated_yaml_files` set. -/
def addFile (files : List String) (f : String) : List String :=
  if files.contains f then files else files ++ [f]

/-- The merge pass over compiled resources: replace in place when the
reference is persisted, otherwise choose a fresh path (secrets for ApiKey)
and append.  Only the append's materialization failure is caught. -/
def linkResourcesLoop (resources_path secrets_path : String) (world : List String)
    (fuel : Nat) : List (ResourceReference × Resource) → List (String × List Value) →
    List String → Bool → EC (List (String × List Value) × List String × Bool)
  | [], updated, files, err => ecPure (updated, files, err)
  | (reference, target) :: rest, updated, files, err => fun s =>
    match alistFind s.existing_resources reference with
    | some location =>
      match Resource.linkSelf fuel target s with
      | .error e => .error e
      | .ok (doc, s₁) =>
        let upd := alistInsert updated location.path
          (((alistFind updated location.path).getD []).set location.index doc)
        linkResourcesLoop resources_path secrets_path world fuel rest upd
          (addFile files location.path) err s₁
    | Option.none =>
      let folder := if reference.kind == "ApiKey" then secrets_path else resources_path
      match create_resource_path world folder target.kind target.name fuel with
      | .error e => .error e
      | .ok target_file =>
        match Resource.linkSelf fuel target s with
        | .error .valueError =>
          linkResourcesLoop resources_path secrets_path world fuel rest updated files true s
        | .error e => .error e
        | .ok (doc, s₁) =>
          let upd := alistInsert updated target_file
            (((alistFind updated target_file).getD []) ++ [doc])
          linkResourcesLoop resources_path secrets_path world fuel rest upd
            (addFile files target_file) err s₁

/-- `link_resources`: seed the per-file document sets from the persisted
configs, merge every compiled resource, raise on any recorded failure, and
return only the touched files with their document sets. -/
def link_resources (prior : List (String × Nat × Doc))
    (resources_path secrets_path : String) (world : List String) (fuel : Nat) :
    EC (List (String × List Value)) :=
  let initial : List (String × List Value) :=
    prior.foldl (fun acc p =>
      alistInsert acc p.1 (((alistFind acc p.1).getD []) ++ [p.2.2.toValue])) []
  fun s =>
    (ecBind
      (linkResourcesLoop resources_path secrets_path world fuel
        s.compiled_resources initial [] false)
      (fun out =>
        if out.2.2 then ecThrow .valueError
        else ecPure (out.2.1.map (fun f => (f, (alistFind out.1 f).getD []))))) s

/-- `CONFIG_PRIORITY`; unknown kinds never reach the sort — the reader
filters them. -/
def config_priority (kind : String) : Nat :=
  match kind with
  | "ResourceDefs" => 0
  | "ApiKey" => 1
  | "Client" => 2
  | "Group" => 3
  | "Loop" => 4
  | "Stream" => 5
  | "Cluster" => 6
  | _ => 7

/-- Stable sort by kind priority (Python `sorted`). -/
def insertByPrio (x : String × Nat × Doc) :
    List (String × Nat × Doc) → List (String × Nat × Doc)
  | [] => [x]
  | y :: ys =>
    if config_priority x.2.2.kind ≤ config_priority y.2.2.kind then x :: y :: ys
    else y :: insertByPrio x ys

def sortByPrio (l : List (String × Nat × Doc)) : List (String × Nat × Doc) :=
  l.foldr insertByPrio []

/-- The validation-and-linking block inside `Commander.apply`'s `try`:
duplicate checks on both sets, the locate pass, compilation, linking. -/
def validationPhases (new prior : List (String × Nat × Doc))
    (resources_path secrets_path : String) (world : List String) (fuel : Nat) :
    EC (List (String × List Value)) :=
  ecBind (check_duplicates new) (fun _ =>
    ecBind (check_duplicates prior) (fun _ =>
      ecBind (map_config_locations prior) (fun _ =>
        ecBind (compile_configs new) (fun _ =>
          link_resources prior resources_path secrets_path world fuel))))

/-- Persist each touched file (one write effect per file). -/
def writeFiles (updated : List (String × List Value)) (s : Ctx) : Ctx :=
  { s with trace := s.trace ++ updated.map (fun p => Effect.write p.1) }

/-- How a run of `Commander.apply` ends: normally, by the caught
`ValueError` (`"Fix the errors and try again."`), or by an uncaught
exception. -/
inductive ApplyOutcome where
  | completed
  | aborted
  | crashed (e : Err)
deriving DecidableEq, Repr

/-- `Commander.apply`: sort the desired configs, run the validation phases
(aborting on their `ValueError` before any write), persist the merged
documents, then push every compiled resource. -/
def commanderApply (new prior : List (String × Nat × Doc))
    (resources_path secrets_path : String) (world : List String)
    (oracle : String → Option String → Nat) (fuel : Nat) (s₀ : Ctx) :
    ApplyOutcome × Ctx :=
  let sortedNew := sortByPrio new
  match validationPhases sortedNew prior resources_path secrets_path world fuel s₀ with
  | .error .valueError => (.aborted, s₀)
  | .error e => (.crashed e, s₀)
  | .ok (updated, s₁) =>
    let s₂ := writeFiles updated s₁
    let out := pushLoop oracle fuel (s₂.compiled_resources.map (·.2)) s₂
    match out.2.2 with
    | Option.none => (.completed, out.2.1)
    | some e => (.crashed e, out.2.1)

/-- The state after `get_generated_id` records a fresh allocation: the memo
table gains the binding and one entropy draw is consumed. -/
def allocState (s : Ctx) (ck : ConfigKey) (nid : String) : Ctx :=
  { s with generated_values := alistInsert s.generated_values ck nid, randomSupply := s.randomSupply.tail }

/-- Two states agreeing on both resource indices (the only fields that hold
`valid` flags). -/
def MapsEq (s s' : Ctx) : Prop :=
  s'.compiled_resources = s.compiled_resources ∧
    s'.existing_resources = s.existing_resources

/-- The credential object stored at provenance `p` is marked invalid. -/
def ValidFalseAt (s : Ctx) (p : Prov) : Prop :=
  provValid s p = some false

/-- A computation that never touches the two resource indices. -/
def PreservesMaps {α : Type} (m : EC α) : Prop :=
  ∀ s a s', m s = .ok (a, s') → MapsEq s s'

/-- A computation that never turns an invalid credential valid again. -/
def PreservesInvalid {α : Type} (m : EC α) : Prop :=
  ∀ s a s' p, m s = .ok (a, s') → ValidFalseAt s p → ValidFalseAt s' p

/- Concrete scenarios used by the per-claim theorems. -/

def c1ref : ResourceReference := ⟨"Client", "acme"⟩

def c1existing : Resource :=
  ⟨"Client", "acme", "thatone.ai/v1", Value.str "http://prior",
   [(PyKey.str "clientId", Value.str "abc")], Option.none, true⟩

/-- First run's persisted state: `Client/acme` applied earlier with the
literal id `"abc"` in its spec, and nothing compiled or generated yet. -/
def c1state : Ctx :=
  ⟨[], [(c1ref, ⟨"resources/Client/acme.yaml", 0, c1existing⟩)], [], [],
   [List.replicate 20 0], []⟩

def c2refA : ResourceReference := ⟨"Client", "a"⟩

def c2refB : ResourceReference := ⟨"Client", "b"⟩

/-- `clients: [(name: a, parentName: b), (name: b, parentName: a)]` with no
`remote` on either: each namespace is an unset `Remote` placeholder and the
parent links form a two-cycle. -/
def c2clientA : Resource :=
  ⟨"Client", "a", "thatone.ai/v1", Value.deferred (.remote c2refA Option.none),
   [], some (.ref c2refB), true⟩

def c2clientB : Resource :=
  ⟨"Client", "b", "thatone.ai/v1", Value.deferred (.remote c2refB Option.none),
   [], some (.ref c2refA), true⟩

def c2state : Ctx :=
  ⟨[(c2refA, c2clientA), (c2refB, c2clientB)], [], [], [], [], []⟩

def c3refP : ResourceReference := ⟨"Client", "p"⟩

def c3refC : ResourceReference := ⟨"Loop", "c"⟩

def c3parent : Resource :=
  ⟨"Client", "p", "thatone.ai/v1", Value.str "http://parent", [], Option.none, true⟩

def c3child : Resource :=
  ⟨"Loop", "c", "thatone.ai/v1", Value.deferred (.remote c3refC Option.none),
   [], some (.ref c3refP), true⟩

def c3orphan : Resource :=
  ⟨"Client", "o", "thatone.ai/v1", Value.deferred (.remote ⟨"Client", "o"⟩ Option.none),
   [], Option.none, true⟩

def c3state : Ctx :=
  ⟨[(c3refP, c3parent), (c3refC, c3child)], [], [], [], [], []⟩

def c5oracle : String → Option String → Nat := fun _ _ => 200

def c5refA : ResourceReference := ⟨"Client", "a"⟩

def c5refB : ResourceReference := ⟨"Client", "b"⟩

/-- A client with no `remote` and no parent: its `apply` raises a
`ValueError` while resolving `str(self.namespace)`. -/
def c5clientA : Resource :=
  ⟨"Client", "a", "thatone.ai/v1", Value.deferred (.remote c5refA Option.none),
   [(PyKey.str "clientId", clientIdD "a"), (PyKey.str "parentId", Value.none)],
   Option.none, true⟩

/-- A client with a preset remote: its `apply` succeeds. -/
def c5clientB : Resource :=
  ⟨"Client", "b", "thatone.ai/v1", Value.deferred (.remote c5refB (some "http://x")),
   [(PyKey.str "clientId", clientIdD "b"), (PyKey.str "parentId", Value.none)],
   Option.none, true⟩

def c5state : Ctx :=
  ⟨[(c5refA, c5clientA), (c5refB, c5clientB)], [], [], [],
   [List.replicate 20 1, List.replicate 20 2, List.replicate 20 3,
    List.replicate 20 4], []⟩

def c6world : List String := ["res/Client/acme.yaml"]

def c7oracle : String → Option String → Nat := fun _ _ => 401

def c7keyRef : ResourceReference := ⟨"ApiKey", "k"⟩

/-- A persisted credential with literal values, valid at the start. -/
def c7key : Resource :=
  ⟨"ApiKey", "k", "thatone.ai/v1", Value.str "http://h",
   [(PyKey.str "clientId", Value.str "c1"), (PyKey.str "apiKey", Value.str "secret")],
   Option.none, true⟩

def c7state : Ctx :=
  ⟨[], [(c7keyRef, ⟨"secrets/ApiKey/k.yaml", 0, c7key⟩)], [], [], [], []⟩

/-- A `ResourceDefs` document whose spec has an unrecognized section: every
envelope field is present and valid, yet `expand_keys` raises. -/
def c8cexDoc : Doc :=
  ⟨"thatone.ai/v1", "ResourceDefs", "x", Option.none, [("widgets", Value.list [])]⟩

def c8cexConfigs : List (String × Nat × Doc) := [("f.yaml", 0, c8cexDoc)]

def c8dupDoc : Doc :=
  ⟨"thatone.ai/v1", "Client", "c1", some (Value.str "http://h"),
   [("clientId", Value.str "z1")]⟩

def c8dupConfigs : List (String × Nat × Doc) :=
  [("f1.yaml", 0, c8dupDoc), ("f2.yaml", 0, c8dupDoc)]

def c9ck : ConfigKey := ⟨⟨"Client", "w"⟩, "clientId"⟩

def c9state : Ctx := ⟨[], [], [], [], [List.replicate 20 0], []⟩

def c4state : Ctx := ⟨[], [], [], [], [], []⟩

def c4oracle : String → Option String → Nat := fun _ _ => 200

/-- The same `(Client, c1)` declared in two files: a structural error. -/
def c4dupDoc : Doc :=
  ⟨"thatone.ai/v1", "Client", "c1", some (Value.str "http://h"),
   [("clientId", Value.str "z1")]⟩

def c4newDup : List (String × Nat × Doc) :=
  [("f1.yaml", 0, c4dupDoc), ("f2.yaml", 0, c4dupDoc)]

/-- The state reached after pushing `c5clientB` alone (used to pin the loop
equation at a concrete input). -/
def c5afterB : Ctx :=
  match applyDispatch c5oracle 10 c5clientB c5state with
  | .ok p => p.2
  | .error _ => c5state

def c10oracle : String → Option String → Nat := fun _ _ => 403

/-- The ApiKey being attached: literal spec and a literal namespace. -/
def c10self : Resource :=
  ⟨"ApiKey", "new", "thatone.ai/v1", Value.str "http://h",
   [(PyKey.str "clientId", Value.str "c1"), (PyKey.str "apiKey", Value.str "fresh")],
   Option.none, true⟩

def c10candRef : ResourceReference := ⟨"ApiKey", "old"⟩

def c10cand : Resource :=
  ⟨"ApiKey", "old", "thatone.ai/v1", Value.str "http://h",
   [(PyKey.str "clientId", Value.str "c1"), (PyKey.str "apiKey", Value.str "oldkey")],
   Option.none, true⟩

def c10state : Ctx :=
  ⟨[], [(c10candRef, ⟨"secrets/ApiKey/old.yaml", 0, c10cand⟩)], [], [], [], []⟩

/-- The state after attaching `c10self` with the candidate's key. -/
def c10after : Ctx :=
  match attach_to_client c10oracle 5 c10self "oldkey" c10state with
  | .ok p => p.2
  | .error _ => c10state

/- Infrastructure lemmas. -/

theorem ecBind_eq_ok {α β : Type} {m : EC α} {f : α → EC β} {s : Ctx}
    {b : β} {s₂ : Ctx} :
    ecBind m f s = .ok (b, s₂) ↔
      ∃ a s₁, m s = .ok (a, s₁) ∧ f a s₁ = .ok (b, s₂) := by
  unfold ecBind
  cases h : m s with
  | error e => simp
  | ok p =>
    cases p with
    | mk a s₁ =>
      constructor
      · intro hf; exact ⟨a, s₁, rfl, hf⟩
      · rintro ⟨a', s₁', h₁, h₂⟩
        cases h₁
        exact h₂

theorem byteHex_length (b : Nat) : (byteHex b).length = 2 := rfl

theorem hexEncode_foldl_length (l : List String) (acc : String) :
    (l.foldl (· ++ ·) acc).length = acc.length + (l.map String.length).sum := by
  induction l generalizing acc with
  | nil => simp
  | cons x xs ih =>
    simp only [List.foldl_cons, List.map_cons, List.sum_cons]
    rw [ih]
    simp [String.length_append]
    omega

theorem hexmap_sum (bytes : List Nat) :
    ((bytes.map byteHex).map String.length).sum = 2 * bytes.length := by
  induction bytes with
  | nil => rfl
  | cons b bs ih =>
    simp only [List.map_cons, List.sum_cons, List.length_cons, ih, byteHex_length]
    omega

theorem hexEncode_length (bytes : List Nat) :
    (hexEncode bytes).length = 2 * bytes.length := by
  unfold hexEncode
  rw [hexEncode_foldl_length, hexmap_sum]
  have h₀ : "".length = 0 := by decide
  rw [h₀]
  omega

theorem string_ne_empty_of_length {x : String} (h : x.length ≠ 0) : x ≠ "" := by
  intro he
  subst he
  simp at h

theorem append_hex_ne_empty (pfx : String) {bytes : List Nat}
    (h : bytes.length = 20) : pfx ++ hexEncode bytes ≠ "" := by
  apply string_ne_empty_of_length
  rw [String.length_append, hexEncode_length, h]
  omega

theorem mem_dedupKeepFirst {α : Type} [DecidableEq α] {a : α} :
    ∀ {l : List α}, a ∈ dedupKeepFirst l ↔ a ∈ l := by
  intro l
  induction l with
  | nil => simp [dedupKeepFirst]
  | cons b bs ih =>
    simp only [dedupKeepFirst, List.mem_cons, List.mem_filter, ih]
    by_cases hab : a = b
    · subst hab; simp
    · simp [hab]

theorem alistFind_of_nodup {κ ν : Type} [DecidableEq κ] :
    ∀ {l : List (κ × ν)} {k : κ} {v : ν},
      (l.map Prod.fst).Nodup → (k, v) ∈ l → alistFind l k = some v := by
  intro l
  induction l with
  | nil => intro k v _ h; cases h
  | cons p rest ih =>
    intro k v hnd hm
    obtain ⟨k₀, v₀⟩ := p
    simp only [List.map_cons, List.nodup_cons] at hnd
    rcases List.mem_cons.mp hm with h | h
    · cases h
      simp [alistFind]
    · have hk : k₀ ≠ k := by
        intro he
        subst he
        exact hnd.1 (List.mem_map.mpr ⟨(k₀, v), h, rfl⟩)
      simp only [alistFind, if_neg hk]
      exact ih hnd.2 h

theorem alistFind_alistModify {κ ν : Type} [DecidableEq κ]
    (l : List (κ × ν)) (k k' : κ) (f : ν → ν) :
    alistFind (alistModify l k f) k' =
      if k' = k then (alistFind l k').map f else alistFind l k' := by
  induction l with
  | nil => simp [alistFind, alistModify]
  | cons p rest ih =>
    obtain ⟨k₀, v₀⟩ := p
    have htail : alistModify ((k₀, v₀) :: rest) k f =
        (if k₀ = k then (k₀, f v₀) else (k₀, v₀)) :: alistModify rest k f := rfl
    rw [htail]
    by_cases hk : k₀ = k
    · subst hk
      rw [if_pos rfl]
      by_cases hk' : k₀ = k'
      · subst hk'
        simp [alistFind]
      · simp only [alistFind, if_neg hk', ih]
    · rw [if_neg hk]
      by_cases hk' : k₀ = k'
      · subst hk'
        simp [alistFind, hk]
      · simp only [alistFind, if_neg hk', ih]

/-- C1. Cross-run identifier stability: the claim asserts that a persisted
literal identifier is reused.  The code probes the persisted spec dictionary
with the `ConfigKey` object itself (`config["spec"].get(configKey)`) while
the dictionary is string-keyed, so the probe always misses and a fresh random
identifier is allocated instead: re-running against persisted state yields a
new identifier, not the persisted `"abc"`. -/
theorem c1_persisted_id_not_reused :
    get_generated_id ⟨c1ref, "clientId"⟩ "acme-" c1state =
      .ok (Value.str ("acme-" ++ hexEncode (List.replicate 20 0)),
        { c1state with
            generated_values :=
              [(⟨c1ref, "clientId"⟩, "acme-" ++ hexEncode (List.replicate 20 0))],
            randomSupply := [] }) ∧
    alistFind c1existing.spec (PyKey.str "clientId") = some (Value.str "abc") ∧
    Value.str ("acme-" ++ hexEncode (List.replicate 20 0)) ≠ Value.str "abc" := by
  refine ⟨rfl, rfl, ?_⟩
  intro h
  injection h with h'
  have hl := congrArg String.length h'
  rw [String.length_append, hexEncode_length] at hl
  exact absurd hl (by decide)

/-- C2. Namespace resolution termination: the claim asserts the upward walk
is bounded and errors out on a cyclic parent chain.  The `while True` loop of
`Remote.link` has no bound: on the two-cycle `a ⇄ b` (neither client carrying
a literal namespace) the walk never returns and never raises, for every
amount of fuel — the run loops forever instead of reporting a resolution
error. -/
theorem c2_remote_walk_diverges_on_cycle :
    ∀ fuel, remoteLoop c2state fuel c2clientA = Option.none ∧
      remoteLoop c2state fuel c2clientB = Option.none := by
  intro fuel
  induction fuel with
  | zero => exact ⟨rfl, rfl⟩
  | succ n ih =>
    refine ⟨?_, ?_⟩
    · show remoteLoop c2state n c2clientB = Option.none
      exact ih.2
    · show remoteLoop c2state n c2clientA = Option.none
      exact ih.1

/-- C6. New-resource placement and collision-avoiding naming: the claim
asserts the numeric suffix is incremented until an unused path is found.  On
the very first collision the code evaluates `prefix + (suffix or "")` with
`suffix == 1`, concatenating a string with an integer — a `TypeError` — so an
occupied `kind/name` path crashes the run instead of producing `kind/name`
with a suffix.  (The unoccupied case does return `folder/kind/name.yaml`.) -/
theorem c6_path_collision_type_error :
    create_resource_path c6world "res" "Client" "acme" 5 = .error .typeError ∧
    create_resource_path [] "res" "Client" "acme" 5 = .ok "res/Client/acme.yaml" := by
  constructor
  · rfl
  · rfl

theorem remoteLoop_step_res {s : Ctx} {r p : Resource}
    (h : nsLiteralOf r.metaNamespace = Option.none)
    (hp : parentOf s r = .res p) (n : Nat) :
    remoteLoop s (n + 1) r = remoteLoop s n p := by
  simp only [remoteLoop, h, hp]

theorem remoteLoop_step_noParent {s : Ctx} {r : Resource}
    (h : nsLiteralOf r.metaNamespace = Option.none)
    (hp : parentOf s r = .noParent) (n : Nat) :
    remoteLoop s (n + 1) r = some (.error .valueError) := by
  simp only [remoteLoop, h, hp]

theorem remoteLoop_step_missing {s : Ctx} {r : Resource}
    (h : nsLiteralOf r.metaNamespace = Option.none)
    (hp : parentOf s r = .missing) (n : Nat) :
    remoteLoop s (n + 1) r = some (.error .valueError) := by
  simp only [remoteLoop, h, hp]

/-- C3. Namespace inheritance: when a resource's own declared namespace is
not a literal string and its `Remote` placeholder carries no preset remote
(`nsLiteralOf … = none`), the walk's result from the resource is exactly the
walk's result from its parent — the resolved namespace is inherited,
recursively — and a resource whose parent slot resolves to `None` (no parent,
or a dangling reference) makes resolution raise the resolution error. -/
theorem c3_namespace_inheritance (s : Ctx) (r : Resource)
    (h : nsLiteralOf r.metaNamespace = Option.none) :
    (∀ p, parentOf s r = .res p →
      ∀ v, (∃ n, remoteLoop s n r = some v) ↔ (∃ n, remoteLoop s n p = some v)) ∧
    (parentOf s r = .noParent →
      ∀ n, remoteLoop s (n + 1) r = some (.error .valueError)) ∧
    (parentOf s r = .missing →
      ∀ n, remoteLoop s (n + 1) r = some (.error .valueError)) := by
  refine ⟨?_, ?_, ?_⟩
  · intro p hp v
    constructor
    · rintro ⟨n, hn⟩
      cases n with
      | zero => exact absurd hn (by simp [remoteLoop])
      | succ m =>
        rw [remoteLoop_step_res h hp] at hn
        exact ⟨m, hn⟩
    · rintro ⟨n, hn⟩
      exact ⟨n + 1, by rw [remoteLoop_step_res h hp]; exact hn⟩
  · intro hp n
    exact remoteLoop_step_noParent h hp n
  · intro hp n
    exact remoteLoop_step_missing h hp n

theorem c3_namespace_inheritance_witness :
    nsLiteralOf c3child.metaNamespace = Option.none ∧
    parentOf c3state c3child = .res c3parent ∧
    (∃ n, remoteLoop c3state n c3child = some (.ok "http://parent")) ∧
    nsLiteralOf c3orphan.metaNamespace = Option.none ∧
    parentOf c3state c3orphan = .noParent ∧
    remoteLoop c3state 1 c3orphan = some (.error .valueError) :=
  ⟨rfl, rfl,
   ((c3_namespace_inheritance c3state c3child rfl).1 c3parent rfl _).mpr ⟨1, rfl⟩,
   rfl, rfl,
   (c3_namespace_inheritance c3state c3orphan rfl).2.1 rfl 0⟩

theorem countKey_pos_mem {pairs : List ((String × String) × String)}
    {k : String × String} (h : 0 < countKey pairs k) : k ∈ pairs.map Prod.fst := by
  unfold countKey at h
  obtain ⟨p, hp⟩ := List.exists_mem_of_length_pos h
  obtain ⟨hmem, hk⟩ := List.mem_filter.mp hp
  have : p.1 = k := by simpa using hk
  exact this ▸ List.mem_map.mpr ⟨p, hmem, rfl⟩

theorem dupReports_mem {pairs : List ((String × String) × String)}
    {k : String × String} (h : 1 < countKey pairs k) :
    (k, dedupKeepFirst ((pairs.filter (fun p => p.1 = k)).map (·.2))) ∈
      dupReports pairs := by
  unfold dupReports
  apply List.mem_filterMap.mpr
  refine ⟨k, ?_, ?_⟩
  · exact mem_dedupKeepFirst.mpr (countKey_pos_mem (Nat.lt_of_lt_of_le Nat.zero_lt_one h.le))
  · rw [if_pos h]

theorem dupReports_nil_iff {pairs : List ((String × String) × String)} :
    dupReports pairs = [] ↔ ∀ k, countKey pairs k ≤ 1 := by
  constructor
  · intro h k
    by_contra hlt
    rw [Nat.not_le] at hlt
    have := dupReports_mem hlt
    rw [h] at this
    cases this
  · intro h
    unfold dupReports
    apply List.filterMap_eq_nil_iff.mpr
    intro k _
    rw [if_neg (Nat.not_lt.mpr (h k))]

/-- C8 counterexample.  The claim says the detector raises nothing when no
key occurs more than once; `c8cexConfigs` is a single well-enveloped
`ResourceDefs` document declaring no resource at all (so no key occurs even
once), yet `check_duplicates` raises — `expand_keys` fails on the
unrecognized spec section `"widgets"` before any counting happens, and the
error is not the aggregate duplicate failure. -/
theorem c8_detector_raises_without_duplicates :
    checkDuplicatesCore c8cexConfigs = .error (.expand .valueError) := rfl

/-- C8 amended.  Provided every document's keys expand successfully
(`scanPairs` returns the occurrence pairs), the detector accepts exactly when
no `(kind, name)` key has a total occurrence count above one; and every key
whose count exceeds one is reported — inside the single aggregate failure —
together with every file that declares it. -/
theorem c8_duplicate_detection_amended (configs : List (String × Nat × Doc))
    (pairs : List ((String × String) × String))
    (hscan : scanPairs configs = .ok pairs) :
    (checkDuplicatesCore configs = .ok () ↔ ∀ k, countKey pairs k ≤ 1) ∧
    (∀ k, 1 < countKey pairs k →
      checkDuplicatesCore configs = .error (.duplicates (dupReports pairs)) ∧
      ∃ files, (k, files) ∈ dupReports pairs ∧
        ∀ f, (k, f) ∈ pairs → f ∈ files) := by
  have hcore : checkDuplicatesCore configs =
      (if (dupReports pairs).isEmpty then .ok () else .error (.duplicates (dupReports pairs))) := by
    unfold checkDuplicatesCore
    rw [hscan]
  constructor
  · rw [hcore]
    by_cases he : (dupReports pairs).isEmpty
    · rw [if_pos he]
      simp only [true_iff, iff_true]
      intro k
      exact dupReports_nil_iff.mp (List.isEmpty_iff.mp he) k
    · rw [if_neg he]
      constructor
      · intro h; cases h
      · intro h
        exact absurd (List.isEmpty_iff.mpr (dupReports_nil_iff.mpr h)) he
  · intro k hk
    have hne : dupReports pairs ≠ [] := by
      intro h
      have := dupReports_nil_iff.mp h k
      omega
    have he : (dupReports pairs).isEmpty = false := by
      rw [Bool.eq_false_iff]
      intro hemp
      exact hne (List.isEmpty_iff.mp hemp)
    refine ⟨by rw [hcore, he]; rfl, ?_⟩
    refine ⟨dedupKeepFirst ((pairs.filter (fun p => p.1 = k)).map (·.2)),
      dupReports_mem hk, ?_⟩
    intro f hf
    exact mem_dedupKeepFirst.mpr
      (List.mem_map.mpr ⟨(k, f), List.mem_filter.mpr ⟨hf, by simp⟩, rfl⟩)

theorem c8_duplicate_detection_amended_witness :
    scanPairs c8dupConfigs =
      .ok [(("Client", "c1"), "f1.yaml"), (("Client", "c1"), "f2.yaml")] ∧
    (checkDuplicatesCore c8dupConfigs =
      .error (.duplicates (dupReports
        [(("Client", "c1"), "f1.yaml"), (("Client", "c1"), "f2.yaml")])) ∧
      ∃ files, (("Client", "c1"), files) ∈ dupReports
          [(("Client", "c1"), "f1.yaml"), (("Client", "c1"), "f2.yaml")] ∧
        ∀ f, (("Client", "c1"), f) ∈
            [((("Client", "c1") : String × String), "f1.yaml"),
             (("Client", "c1"), "f2.yaml")] → f ∈ files) :=
  ⟨rfl, (c8_duplicate_detection_amended c8dupConfigs _ rfl).2 ("Client", "c1") (by decide)⟩

theorem ecBind_error {α β : Type} {m : EC α} {f : α → EC β} {s : Ctx} {e : Err}
    (h : m s = .error e) : ecBind m f s = .error e := by
  unfold ecBind
  rw [h]

theorem ecBind_ok {α β : Type} {m : EC α} {f : α → EC β} {s : Ctx} {a : α} {s₁ : Ctx}
    (h : m s = .ok (a, s₁)) : ecBind m f s = f a s₁ := by
  unfold ecBind
  rw [h]

theorem commanderApply_eq (new prior : List (String × Nat × Doc))
    (rp sp : String) (world : List String) (oracle : String → Option String → Nat)
    (fuel : Nat) (s₀ : Ctx) :
    commanderApply new prior rp sp world oracle fuel s₀ =
      match validationPhases (sortByPrio new) prior rp sp world fuel s₀ with
      | .error .valueError => (ApplyOutcome.aborted, s₀)
      | .error e => (ApplyOutcome.crashed e, s₀)
      | .ok (updated, s₁) =>
        let s₂ := writeFiles updated s₁
        let out := pushLoop oracle fuel (s₂.compiled_resources.map (·.2)) s₂
        match out.2.2 with
        | Option.none => (ApplyOutcome.completed, out.2.1)
        | some e => (ApplyOutcome.crashed e, out.2.1) := rfl

theorem commanderApply_of_validation_error {new prior : List (String × Nat × Doc)}
    {rp sp : String} {world : List String} {oracle : String → Option String → Nat}
    {fuel : Nat} {s₀ : Ctx} {e : Err}
    (hv : validationPhases (sortByPrio new) prior rp sp world fuel s₀ = .error e) :
    (commanderApply new prior rp sp world oracle fuel s₀).2 = s₀ ∧
    (commanderApply new prior rp sp world oracle fuel s₀).1 ≠ .completed := by
  cases e <;>
    rw [commanderApply_eq, hv] <;> exact ⟨rfl, fun h => by cases h⟩

/-- C4. Write atomicity of the apply run: if the validation-and-linking block
(duplicate checks on both sets, the locate pass, compilation, linking) fails,
`Commander.apply` stops with the state it started from — a trace that was
empty stays empty, so no file write and no network call happened; conversely
any recorded effect implies every validation phase succeeded, i.e. writes
only ever follow a fully successful validation. -/
theorem c4_no_writes_on_validation_failure
    (new prior : List (String × Nat × Doc)) (rp sp : String) (world : List String)
    (oracle : String → Option String → Nat) (fuel : Nat) (s₀ : Ctx)
    (hs : s₀.trace = []) :
    (∀ e, validationPhases (sortByPrio new) prior rp sp world fuel s₀ = .error e →
      (commanderApply new prior rp sp world oracle fuel s₀).2.trace = [] ∧
      (commanderApply new prior rp sp world oracle fuel s₀).1 ≠ .completed) ∧
    ((commanderApply new prior rp sp world oracle fuel s₀).2.trace ≠ [] →
      ∃ u s₁, validationPhases (sortByPrio new) prior rp sp world fuel s₀ = .ok (u, s₁)) := by
  constructor
  · intro e he
    obtain ⟨h₂, h₁⟩ := @commanderApply_of_validation_error new prior rp sp world oracle fuel s₀ e he
    rw [h₂]
    exact ⟨hs, h₁⟩
  · intro ht
    cases hv : validationPhases (sortByPrio new) prior rp sp world fuel s₀ with
    | error e =>
      obtain ⟨h₂, _⟩ := @commanderApply_of_validation_error new prior rp sp world oracle fuel s₀ e hv
      rw [h₂, hs] at ht
      exact absurd rfl ht
    | ok u =>
      obtain ⟨u₁, u₂⟩ := u
      exact ⟨u₁, u₂, rfl⟩

theorem c4_no_writes_on_validation_failure_witness :
    c4state.trace = [] ∧
    validationPhases (sortByPrio c4newDup) [] "res" "sec" [] 10 c4state =
      .error .valueError ∧
    (commanderApply c4newDup [] "res" "sec" [] c4oracle 10 c4state).2.trace = [] ∧
    (commanderApply c4newDup [] "res" "sec" [] c4oracle 10 c4state).1 ≠ .completed :=
  ⟨rfl, rfl,
   ((c4_no_writes_on_validation_failure c4newDup [] "res" "sec" [] c4oracle 10 c4state
      rfl).1 .valueError rfl).1,
   ((c4_no_writes_on_validation_failure c4newDup [] "res" "sec" [] c4oracle 10 c4state
      rfl).1 .valueError rfl).2⟩

/-- C5 counterexample.  The claim says a failure while applying one compiled
resource — including an exception raised during its materialization or push —
does not prevent the remaining resources from being pushed.  Pushing
`[c5clientA, c5clientB]`, where `c5clientA` has no remote and no parent (its
namespace resolution raises `ValueError` inside `apply`), attempts only
`Client/a`: the `except` block re-raises after logging, and `Client/b` is
never pushed. -/
theorem c5_push_exception_stops_remaining :
    (pushLoop c5oracle 10 [c5clientA, c5clientB] c5state).1 = [c5refA] ∧
    (pushLoop c5oracle 10 [c5clientA, c5clientB] c5state).2.2 = some .valueError :=
  ⟨rfl, rfl⟩

/-- C5 amended.  A push failure that `apply` reports by returning (a non-200
response, exhausted credentials) does not stop the remaining pushes — an
error-free loop attempts every compiled resource — but an exception raised
during a resource's materialization or push is logged and re-raised, ending
the loop with the remaining resources unattempted. -/
theorem c5_push_failure_isolation_amended :
    (∀ oracle fuel r rest s b s₁,
      applyDispatch oracle fuel r s = .ok (b, s₁) →
      pushLoop oracle fuel (r :: rest) s =
        (r.reference :: (pushLoop oracle fuel rest s₁).1,
         (pushLoop oracle fuel rest s₁).2)) ∧
    (∀ oracle fuel l s,
      (pushLoop oracle fuel l s).2.2 = Option.none →
      (pushLoop oracle fuel l s).1 = l.map Resource.reference) ∧
    (∀ oracle fuel r rest s e,
      applyDispatch oracle fuel r s = .error e →
      pushLoop oracle fuel (r :: rest) s = ([r.reference], s, some e)) := by
  refine ⟨?_, ?_, ?_⟩
  · intro oracle fuel r rest s b s₁ h
    simp only [pushLoop, h]
  · intro oracle fuel l
    induction l with
    | nil => intro s _; rfl
    | cons r rest ih =>
      intro s hnone
      cases hd : applyDispatch oracle fuel r s with
      | error e =>
        simp only [pushLoop, hd] at hnone
        cases hnone
      | ok p =>
        obtain ⟨b, s₁⟩ := p
        simp only [pushLoop, hd] at hnone ⊢
        rw [List.map_cons, ih s₁ hnone]
  · intro oracle fuel r rest s e h
    simp only [pushLoop, h]

theorem c5_push_failure_isolation_amended_witness :
    applyDispatch c5oracle 10 c5clientB c5state = .ok (true, c5afterB) ∧
    pushLoop c5oracle 10 [c5clientB] c5state =
      (c5clientB.reference :: (pushLoop c5oracle 10 [] c5afterB).1,
       (pushLoop c5oracle 10 [] c5afterB).2) :=
  ⟨rfl,
   c5_push_failure_isolation_amended.1 c5oracle 10 c5clientB [] c5state true c5afterB rfl⟩

theorem alistFind_alistInsert_self {κ ν : Type} [DecidableEq κ]
    (l : List (κ × ν)) (k : κ) (v : ν) :
    alistFind (alistInsert l k v) k = some v := by
  induction l with
  | nil => simp [alistInsert, alistFind]
  | cons p rest ih =>
    obtain ⟨k₀, v₀⟩ := p
    by_cases h : k₀ = k
    · subst h; simp [alistInsert, alistFind]
    · simp [alistInsert, alistFind, h, ih]

theorem get_generated_id_of_compiled_miss {s : Ctx} {ck : ConfigKey} {pfx : String}
    (h : ∀ r, alistFind s.compiled_resources ck.reference = some r →
      alistFind r.spec (PyKey.cfg ck) = Option.none) :
    get_generated_id ck pfx s =
      match alistFind s.generated_values ck with
      | some generated =>
        if generated ≠ "" then .ok (.str generated, s)
        else get_generated_id.fallbackExistingOrFresh ck pfx s
      | Option.none => get_generated_id.fallbackExistingOrFresh ck pfx s := by
  unfold get_generated_id
  cases hc : alistFind s.compiled_resources ck.reference with
  | none => simp only [hc]
  | some created => simp only [hc, h created hc]

theorem fallback_spec (ck : ConfigKey) (pfx : String) (s : Ctx)
    (hsupply : (s.randomSupply.headD []).length = 20) :
    (∃ r, get_generated_id.fallbackExistingOrFresh ck pfx s = .ok (r, s)) ∨
    (∃ nid, nid ≠ "" ∧
      get_generated_id.fallbackExistingOrFresh ck pfx s =
        .ok (.str nid, allocState s ck nid)) := by
  have halloc :
      (ecBind random_id (fun rid => fun s₁ =>
        .ok (Value.str (pfx ++ rid),
          { s₁ with generated_values :=
            alistInsert s₁.generated_values ck (pfx ++ rid) }))) s =
        .ok (.str (pfx ++ hexEncode (s.randomSupply.headD [])),
          allocState s ck (pfx ++ hexEncode (s.randomSupply.headD []))) := rfl
  have hnid : pfx ++ hexEncode (s.randomSupply.headD []) ≠ "" :=
    append_hex_ne_empty pfx hsupply
  unfold get_generated_id.fallbackExistingOrFresh
  cases he : alistFind s.existing_resources ck.reference with
  | none =>
    right
    exact ⟨_, hnid, by simp only [he]; exact halloc⟩
  | some ex =>
    cases her : alistFind ex.resource.spec (PyKey.cfg ck) with
    | none =>
      right
      exact ⟨_, hnid, by simp only [he, her]; exact halloc⟩
    | some r =>
      by_cases ht : pyTruthy r
      · left
        exact ⟨r, by simp only [he, her, ht, if_pos]⟩
      · right
        refine ⟨_, hnid, ?_⟩
        simp only [he, her, ht, if_neg, Bool.false_eq_true]
        exact halloc

/-- C9. Within-run idempotence of identifier resolution: as long as no
compiled resource carries a (necessarily `ConfigKey`-keyed) literal for the
field — the invariant of every spec dictionary the code builds — and the
entropy source yields the 20 bytes `os.urandom` provides, resolving the same
`ConfigKey` twice returns the same value and the same state: the first
resolution either reads an existing value or records a fresh one in
`generated_values`, and the second resolution returns that recorded value
without allocating again. -/
theorem c9_memoized_resolution (s : Ctx) (ck : ConfigKey) (pfx : String)
    (hcomp : ∀ r, alistFind s.compiled_resources ck.reference = some r →
      alistFind r.spec (PyKey.cfg ck) = Option.none)
    (hsupply : (s.randomSupply.headD []).length = 20) :
    ∃ v s₁, get_generated_id ck pfx s = .ok (v, s₁) ∧
      get_generated_id ck pfx s₁ = .ok (v, s₁) := by
  have hfall : get_generated_id ck pfx s =
        get_generated_id.fallbackExistingOrFresh ck pfx s →
      ∃ v s₁, get_generated_id ck pfx s = .ok (v, s₁) ∧
        get_generated_id ck pfx s₁ = .ok (v, s₁) := by
    intro hmiss
    rcases fallback_spec ck pfx s hsupply with ⟨r, hr⟩ | ⟨nid, hnid, hr⟩
    · exact ⟨r, s, by rw [hmiss, hr], by rw [hmiss, hr]⟩
    · refine ⟨.str nid, allocState s ck nid, by rw [hmiss, hr], ?_⟩
      rw [@get_generated_id_of_compiled_miss (allocState s ck nid) ck pfx
        (fun r h => hcomp r h)]
      have hmemo : alistFind (allocState s ck nid).generated_values ck = some nid :=
        alistFind_alistInsert_self _ _ _
      rw [hmemo]
      simp only [if_pos hnid]
  cases hg : alistFind s.generated_values ck with
  | none => exact hfall (by rw [get_generated_id_of_compiled_miss hcomp, hg])
  | some g =>
    by_cases hge : g ≠ ""
    · refine ⟨.str g, s, ?_, ?_⟩ <;>
        rw [get_generated_id_of_compiled_miss hcomp, hg] <;>
        simp only [if_pos hge]
    · exact hfall
        (by rw [get_generated_id_of_compiled_miss hcomp, hg]; simp only [if_neg hge])

theorem c9_memoized_resolution_witness :
    ∃ v s₁, get_generated_id c9ck "w-" c9state = .ok (v, s₁) ∧
      get_generated_id c9ck "w-" s₁ = .ok (v, s₁) :=
  c9_memoized_resolution c9state c9ck "w-"
    (fun r h => by simp [alistFind, c9state] at h)
    (by decide)

/- State-preservation lemmas: which operations can touch the resource
indices, and hence the `valid` flags, and which cannot. -/

theorem mapsEq_refl (s : Ctx) : MapsEq s s := ⟨rfl, rfl⟩

theorem mapsEq_trans {s₁ s₂ s₃ : Ctx} (h₁ : MapsEq s₁ s₂) (h₂ : MapsEq s₂ s₃) :
    MapsEq s₁ s₃ := ⟨h₂.1.trans h₁.1, h₂.2.trans h₁.2⟩

theorem ok_snd_eq {α : Type} {x : α} {t : Ctx} {a : α} {s' : Ctx}
    (h : (Except.ok (x, t) : Except Err (α × Ctx)) = .ok (a, s')) : t = s' := by
  injection h with h'
  exact congrArg Prod.snd h'

theorem preserves_ecPure {α : Type} (a : α) : PreservesMaps (ecPure a) :=
  fun s _ _ h => (ok_snd_eq h) ▸ mapsEq_refl s

theorem preserves_ecThrow {α : Type} (e : Err) : PreservesMaps (@ecThrow α e) :=
  fun _ _ _ h => by cases h

theorem preserves_ecOfExcept {α : Type} (x : Except Err α) :
    PreservesMaps (ecOfExcept x) := by
  cases x with
  | error e => exact preserves_ecThrow e
  | ok a => exact preserves_ecPure a

theorem preserves_ecBind {α β : Type} {m : EC α} {f : α → EC β}
    (hm : PreservesMaps m) (hf : ∀ a, PreservesMaps (f a)) :
    PreservesMaps (ecBind m f) := by
  intro s b s' h
  obtain ⟨a, s₁, h₁, h₂⟩ := ecBind_eq_ok.mp h
  exact mapsEq_trans (hm s a s₁ h₁) (hf a s₁ b s' h₂)

theorem preserves_random_id : PreservesMaps random_id :=
  fun s _ s' h =>
    (ok_snd_eq h) ▸ (⟨rfl, rfl⟩ : MapsEq s { s with randomSupply := s.randomSupply.tail })

theorem preserves_allocPart (ck : ConfigKey) (pfx : String) :
    PreservesMaps (ecBind random_id (fun rid => fun s₁ =>
      .ok (Value.str (pfx ++ rid),
        { s₁ with generated_values := alistInsert s₁.generated_values ck (pfx ++ rid) }))) := by
  intro s a s' h
  obtain ⟨rid, s₁, h₁, h₂⟩ := ecBind_eq_ok.mp h
  refine mapsEq_trans (preserves_random_id s rid s₁ h₁) ?_
  exact (ok_snd_eq h₂) ▸
    (⟨rfl, rfl⟩ : MapsEq s₁
      { s₁ with generated_values := alistInsert s₁.generated_values ck (pfx ++ rid) })

theorem preserves_fallback (ck : ConfigKey) (pfx : String) :
    PreservesMaps (get_generated_id.fallbackExistingOrFresh ck pfx) := by
  intro s a s' h
  unfold get_generated_id.fallbackExistingOrFresh at h
  cases he : alistFind s.existing_resources ck.reference with
  | none =>
    simp only [he] at h
    exact preserves_allocPart ck pfx s a s' h
  | some ex =>
    cases her : alistFind ex.resource.spec (PyKey.cfg ck) with
    | none =>
      simp only [he, her] at h
      exact preserves_allocPart ck pfx s a s' h
    | some r =>
      cases ht : pyTruthy r with
      | true =>
        simp only [he, her, ht, if_pos] at h
        exact (ok_snd_eq h) ▸ mapsEq_refl s
      | false =>
        simp only [he, her, ht, Bool.false_eq_true, if_false] at h
        exact preserves_allocPart ck pfx s a s' h

theorem preserves_get_generated_id (ck : ConfigKey) (pfx : String) :
    PreservesMaps (get_generated_id ck pfx) := by
  intro s a s' h
  have memoPart : (match alistFind s.generated_values ck with
      | some generated =>
        if generated ≠ "" then Except.ok (Value.str generated, s)
        else get_generated_id.fallbackExistingOrFresh ck pfx s
      | Option.none => get_generated_id.fallbackExistingOrFresh ck pfx s) =
        .ok (a, s') → MapsEq s s' := by
    intro hm
    cases hg : alistFind s.generated_values ck with
    | some g =>
      simp only [hg] at hm
      by_cases hge : g ≠ ""
      · rw [if_pos hge] at hm
        exact (ok_snd_eq hm) ▸ mapsEq_refl s
      · rw [if_neg hge] at hm
        exact preserves_fallback ck pfx s a s' hm
    | none =>
      simp only [hg] at hm
      exact preserves_fallback ck pfx s a s' hm
  unfold get_generated_id at h
  cases hc : alistFind s.compiled_resources ck.reference with
  | none =>
    simp only [hc] at h
    exact memoPart h
  | some created =>
    cases hcr : alistFind created.spec (PyKey.cfg ck) with
    | none =>
      simp only [hc, hcr] at h
      exact memoPart h
    | some r =>
      cases hb : pyTruthy r && !r.isDeferred with
      | true =>
        simp only [hc, hcr, hb, if_pos] at h
        exact (ok_snd_eq h) ▸ mapsEq_refl s
      | false =>
        simp only [hc, hcr, hb, Bool.false_eq_true, if_false] at h
        exact memoPart h

theorem preserves_registerIdRef (i : ResourceId) (reference : ResourceReference) :
    PreservesMaps (registerIdRef i reference) :=
  fun s _ s' h =>
    (ok_snd_eq h) ▸
      (⟨rfl, rfl⟩ : MapsEq s
        { s with id_to_reference := alistInsert s.id_to_reference i reference })

theorem preserves_require (reference : ResourceReference) :
    PreservesMaps (require_resource_by_reference reference) := by
  intro s a s' h
  unfold require_resource_by_reference at h
  cases hr : get_resource_by_reference s reference with
  | none => rw [hr] at h; cases h
  | some r =>
    rw [hr] at h
    exact (ok_snd_eq h) ▸ mapsEq_refl s

theorem preserves_remoteLink (fuel : Nat) (reference : ResourceReference)
    (rm : Option String) : PreservesMaps (remoteLink fuel reference rm) := by
  intro s a s' h
  unfold remoteLink at h
  by_cases hrm : rm.getD "" ≠ ""
  · rw [if_pos hrm] at h
    exact (ok_snd_eq h) ▸ mapsEq_refl s
  · rw [if_neg hrm] at h
    obtain ⟨r, s₁, h₁, h₂⟩ := ecBind_eq_ok.mp h
    refine mapsEq_trans (preserves_require reference s r s₁ h₁) ?_
    cases hl : remoteLoop s₁ fuel r with
    | none => rw [hl] at h₂; cases h₂
    | some x =>
      cases x with
      | ok v =>
        rw [hl] at h₂
        exact (ok_snd_eq h₂) ▸ mapsEq_refl s₁
      | error e => rw [hl] at h₂; cases h₂

theorem preserves_linkV (fuel : Nat) (d : DeferredV) :
    PreservesMaps (DeferredV.linkV fuel d) := by
  cases d with
  | deferredId ck =>
    exact preserves_ecBind (preserves_get_generated_id ck (ck.reference.name ++ "-"))
      (fun result => preserves_ecBind
        (preserves_registerIdRef ⟨ck.reference.kind, result.asStr⟩ ck.reference)
        (fun _ => preserves_ecPure result))
  | apiKeyId ck => exact preserves_get_generated_id ck ""
  | remote reference rm =>
    exact preserves_ecBind (preserves_remoteLink fuel reference rm)
      (fun v => preserves_ecPure (Value.str v))

theorem preserves_pyToStr (fuel : Nat) (v : Value) :
    PreservesMaps (pyToStr fuel v) := by
  cases v with
  | deferred d =>
    exact preserves_ecBind (preserves_linkV fuel d) (fun v => preserves_ecPure v.asStr)
  | none => exact preserves_ecPure _
  | bool b => exact preserves_ecPure _
  | int n => exact preserves_ecPure _
  | str s => exact preserves_ecPure _
  | list xs => exact preserves_ecPure _
  | dict xs => exact preserves_ecPure _

theorem preserves_dictGetItem (xs : List (PyKey × Value)) (k : PyKey) :
    PreservesMaps (dictGetItem xs k) := by
  unfold dictGetItem
  cases alistFind xs k with
  | none => exact preserves_ecThrow _
  | some v => exact preserves_ecPure v

theorem preserves_resourceKeyStr (fuel : Nat) (k : Resource) :
    PreservesMaps (resourceKeyStr fuel k) :=
  preserves_ecBind (preserves_dictGetItem k.spec (PyKey.str "apiKey"))
    (fun v => preserves_pyToStr fuel v)

theorem preserves_get_client_parent_id (fuel : Nat) (client_id : ResourceId) :
    PreservesMaps (get_client_parent_id fuel client_id) := by
  intro s a s' h
  unfold get_client_parent_id at h
  cases h₁ : alistFind s.id_to_reference client_id with
  | none =>
    simp only [h₁] at h
    exact (ok_snd_eq h) ▸ mapsEq_refl s
  | some reference =>
    simp only [h₁] at h
    cases h₂ : get_resource_by_reference s reference with
    | none =>
      simp only [h₂] at h
      exact (ok_snd_eq h) ▸ mapsEq_refl s
    | some resource =>
      simp only [h₂] at h
      cases h₃ : alistFind resource.spec (PyKey.str "parentId") with
      | none =>
        simp only [h₃] at h
        exact (ok_snd_eq h) ▸ mapsEq_refl s
      | some pv =>
        simp only [h₃] at h
        exact preserves_ecBind (preserves_pyToStr fuel pv)
          (fun ps => preserves_ecPure _) s a s' h

theorem preserves_filterCands (fuel : Nat) (cidStr : String) :
    ∀ l : List (Prov × Resource), PreservesMaps (filterCands fuel cidStr l)
  | [] => preserves_ecPure []
  | (p, k) :: rest => by
    unfold filterCands
    by_cases hv : !k.valid
    · rw [if_pos hv]
      exact preserves_filterCands fuel cidStr rest
    · rw [if_neg hv]
      exact preserves_ecBind (preserves_dictGetItem k.spec (PyKey.str "clientId"))
        (fun cv => preserves_ecBind (preserves_pyToStr fuel cv)
          (fun cstr => by
            by_cases hc : cstr ≠ cidStr
            · rw [if_pos hc]
              exact preserves_filterCands fuel cidStr rest
            · rw [if_neg hc]
              exact preserves_ecBind (preserves_resourceKeyStr fuel k)
                (fun _ => preserves_ecBind (preserves_filterCands fuel cidStr rest)
                  (fun tail => preserves_ecPure _))))

theorem preserves_apikeys_for_client :
    ∀ (fuel : Nat) (client_id : ResourceId), PreservesMaps (apikeys_for_client fuel client_id)
  | 0, _ => preserves_ecThrow _
  | fuel + 1, client_id => by
    intro s a s' h
    obtain ⟨own, s₁, h₁, h₂⟩ := ecBind_eq_ok.mp h
    refine mapsEq_trans
      (preserves_filterCands fuel client_id.id (get_resources_by_type s "ApiKey") s own s₁ h₁) ?_
    obtain ⟨pid, s₂, h₃, h₄⟩ := ecBind_eq_ok.mp h₂
    refine mapsEq_trans (preserves_get_client_parent_id fuel client_id s₁ pid s₂ h₃) ?_
    cases pid with
    | none => exact preserves_ecPure own s₂ a s' h₄
    | some parent_id =>
      exact preserves_ecBind (preserves_apikeys_for_client fuel parent_id)
        (fun rest => preserves_ecPure _) s₂ a s' h₄

theorem preserves_apikeys_for_resource (fuel : Nat) :
    ∀ (walkFuel : Nat) (r : Resource), PreservesMaps (apikeys_for_resource fuel walkFuel r)
  | 0, _ => preserves_ecThrow _
  | walkFuel + 1, r => by
    unfold apikeys_for_resource
    by_cases hk : r.kind == "Client"
    · rw [if_pos hk]
      exact preserves_ecBind (preserves_dictGetItem r.spec (PyKey.str "clientId"))
        (fun cidv => preserves_ecBind (preserves_pyToStr fuel cidv)
          (fun cid => preserves_ecBind
            (preserves_apikeys_for_client fuel (ResourceId.mk "Client" cid))
            (fun keys => preserves_ecPure _)))
    · rw [if_neg hk]
      intro s a s' h
      cases hp : parentOf s r with
      | res p =>
        simp only [hp] at h
        exact preserves_apikeys_for_resource fuel walkFuel p s a s' h
      | keyErr =>
        simp only [hp] at h
        cases h
      | noParent =>
        simp only [hp] at h
        exact (ok_snd_eq h) ▸ mapsEq_refl s
      | missing =>
        simp only [hp] at h
        exact (ok_snd_eq h) ▸ mapsEq_refl s

theorem preserves_put_with_key (oracle : String → Option String → Nat)
    (url : String) (key : Option String) :
    PreservesMaps (put_with_key oracle url key) :=
  fun s _ s' h =>
    (ok_snd_eq h) ▸ (⟨rfl, rfl⟩ : MapsEq s (recordPut s url key (oracle url key)))

mutual

theorem preserves_linkValue (fuel : Nat) : ∀ v : Value, PreservesMaps (linkValue fuel v)
  | .deferred d => preserves_linkV fuel d
  | .list xs =>
    preserves_ecBind (preserves_linkValues fuel xs) (fun ys => preserves_ecPure (Value.list ys))
  | .dict xs =>
    preserves_ecBind (preserves_linkPairs fuel xs) (fun ys => preserves_ecPure (Value.dict ys))
  | .none => preserves_ecPure _
  | .bool b => preserves_ecPure _
  | .int n => preserves_ecPure _
  | .str st => preserves_ecPure _

theorem preserves_linkValues (fuel : Nat) : ∀ xs : List Value, PreservesMaps (linkValues fuel xs)
  | [] => preserves_ecPure []
  | v :: vs =>
    preserves_ecBind (preserves_linkValue fuel v)
      (fun v₁ => preserves_ecBind (preserves_linkValues fuel vs)
        (fun vs₁ => preserves_ecPure (v₁ :: vs₁)))

theorem preserves_linkPairs (fuel : Nat) :
    ∀ xs : List (PyKey × Value), PreservesMaps (linkPairs fuel xs)
  | [] => preserves_ecPure []
  | (k, v) :: ps =>
    preserves_ecBind (preserves_linkValue fuel v)
      (fun v₁ => preserves_ecBind (preserves_linkPairs fuel ps)
        (fun ps₁ => preserves_ecPure ((k, v₁) :: ps₁)))

end

theorem preserves_linkSelf (fuel : Nat) (r : Resource) :
    PreservesMaps (Resource.linkSelf fuel r) :=
  preserves_ecBind (preserves_linkValue fuel r.metaNamespace)
    (fun ns => preserves_ecBind (preserves_linkPairs fuel r.spec)
      (fun spec₁ => preserves_ecPure _))

theorem preserves_attach (oracle : String → Option String → Nat) (fuel : Nat)
    (self : Resource) (existing_key : String) :
    PreservesMaps (attach_to_client oracle fuel self existing_key) := by
  refine preserves_ecBind (preserves_linkSelf fuel self) (fun config => ?_)
  refine preserves_ecBind ?_ (fun md => ?_)
  · cases config with
    | dict xs => exact preserves_dictGetItem xs (PyKey.str "metadata")
    | none => exact preserves_ecThrow _
    | bool b => exact preserves_ecThrow _
    | int n => exact preserves_ecThrow _
    | str st => exact preserves_ecThrow _
    | list xs => exact preserves_ecThrow _
    | deferred d => exact preserves_ecThrow _
  · refine preserves_ecBind ?_ (fun nsv => ?_)
    · cases md with
      | dict xs => exact preserves_dictGetItem xs (PyKey.str "namespace")
      | none => exact preserves_ecThrow _
      | bool b => exact preserves_ecThrow _
      | int n => exact preserves_ecThrow _
      | str st => exact preserves_ecThrow _
      | list xs => exact preserves_ecThrow _
      | deferred d => exact preserves_ecThrow _
    · exact preserves_ecBind (preserves_pyToStr fuel nsv)
        (fun url => preserves_ecBind
          (preserves_put_with_key oracle (url ++ "/policies/thatone.ai/v1/ApiKey")
            (some existing_key))
          (fun _ => preserves_ecPure true))

theorem ok_fst_eq {α : Type} {x : α} {t : Ctx} {a : α} {s' : Ctx}
    (h : (Except.ok (x, t) : Except Err (α × Ctx)) = .ok (a, s')) : x = a := by
  injection h with h'
  exact congrArg Prod.fst h'

theorem provValid_congr {s s' : Ctx} (h : MapsEq s s') (p : Prov) :
    provValid s' p = provValid s p := by
  cases p with
  | compiledAt reference => unfold provValid; rw [h.1]
  | existingAt reference => unfold provValid; rw [h.2]

theorem preservesInvalid_of_maps {α : Type} {m : EC α} (h : PreservesMaps m) :
    PreservesInvalid m := by
  intro s a s' p hm hv
  unfold ValidFalseAt at *
  rw [provValid_congr (h s a s' hm) p]
  exact hv

theorem preservesInvalid_ecBind {α β : Type} {m : EC α} {f : α → EC β}
    (hm : PreservesInvalid m) (hf : ∀ a, PreservesInvalid (f a)) :
    PreservesInvalid (ecBind m f) := by
  intro s b s' p h hv
  obtain ⟨a, s₁, h₁, h₂⟩ := ecBind_eq_ok.mp h
  exact hf a s₁ b s' p h₂ (hm s a s₁ p h₁ hv)

theorem markInvalidCtx_validFalse {s : Ctx} {p : Prov}
    (h : (provValid s p).isSome) : ValidFalseAt (markInvalidCtx s p) p := by
  cases p with
  | compiledAt ref =>
    simp only [provValid] at h
    simp only [ValidFalseAt, provValid, markInvalidCtx]
    rw [alistFind_alistModify, if_pos rfl]
    cases hf : alistFind s.compiled_resources ref with
    | none => rw [hf] at h; simp at h
    | some r => rfl
  | existingAt ref =>
    simp only [provValid] at h
    simp only [ValidFalseAt, provValid, markInvalidCtx]
    rw [alistFind_alistModify, if_pos rfl]
    cases hf : alistFind s.existing_resources ref with
    | none => rw [hf] at h; simp at h
    | some r => rfl

theorem markInvalidCtx_preserves {s : Ctx} {p' : Prov} (p : Prov)
    (h : ValidFalseAt s p') : ValidFalseAt (markInvalidCtx s p) p' := by
  cases p with
  | compiledAt ref =>
    cases p' with
    | compiledAt ref' =>
      simp only [ValidFalseAt, provValid, markInvalidCtx] at h ⊢
      rw [alistFind_alistModify]
      by_cases he : ref' = ref
      · rw [if_pos he]
        cases hf : alistFind s.compiled_resources ref' with
        | none => rw [hf] at h; cases h
        | some r => rfl
      · rw [if_neg he]; exact h
    | existingAt ref' =>
      simp only [ValidFalseAt, provValid, markInvalidCtx] at h ⊢
      exact h
  | existingAt ref =>
    cases p' with
    | compiledAt ref' =>
      simp only [ValidFalseAt, provValid, markInvalidCtx] at h ⊢
      exact h
    | existingAt ref' =>
      simp only [ValidFalseAt, provValid, markInvalidCtx] at h ⊢
      rw [alistFind_alistModify]
      by_cases he : ref' = ref
      · rw [if_pos he]
        cases hf : alistFind s.existing_resources ref' with
        | none => rw [hf] at h; cases h
        | some r => rfl
      · rw [if_neg he]; exact h

theorem preservesInvalid_markInvalid (p : Prov) : PreservesInvalid (markInvalid p) := by
  intro s a s' p' h hv
  rw [← ok_snd_eq h]
  exact markInvalidCtx_preserves p hv

theorem preservesInvalid_applyKeysLoop (oracle : String → Option String → Nat)
    (url : String) (fuel : Nat) :
    ∀ ks : List (Prov × Resource), PreservesInvalid (applyKeysLoop oracle url fuel ks)
  | [] => preservesInvalid_of_maps (preserves_ecPure Option.none)
  | (p, k) :: rest =>
    preservesInvalid_ecBind (preservesInvalid_of_maps (preserves_resourceKeyStr fuel k))
      (fun kv => preservesInvalid_ecBind
        (preservesInvalid_of_maps (preserves_put_with_key oracle url (some kv)))
        (fun st => by
          by_cases hst : st ≠ 401
          · rw [if_pos hst]
            exact preservesInvalid_of_maps (preserves_ecPure (some st))
          · rw [if_neg hst]
            exact preservesInvalid_ecBind (preservesInvalid_markInvalid p)
              (fun _ => preservesInvalid_applyKeysLoop oracle url fuel rest)))

theorem preservesInvalid_resourceApply (oracle : String → Option String → Nat)
    (fuel : Nat) (self : Resource) : PreservesInvalid (resourceApply oracle fuel self) := by
  unfold resourceApply
  refine preservesInvalid_ecBind
    (preservesInvalid_of_maps (preserves_apikeys_for_resource fuel fuel self))
    (fun api_keys => ?_)
  refine preservesInvalid_ecBind
    (preservesInvalid_of_maps (preserves_pyToStr fuel self.metaNamespace)) (fun url => ?_)
  refine preservesInvalid_ecBind
    (preservesInvalid_of_maps (preserves_linkSelf fuel self)) (fun _cc => ?_)
  cases api_keys with
  | none => exact preservesInvalid_of_maps (preserves_ecThrow _)
  | some keys =>
    refine preservesInvalid_ecBind (preservesInvalid_applyKeysLoop oracle _ fuel keys)
      (fun st? => ?_)
    refine preservesInvalid_ecBind ?_ (fun st => ?_)
    · cases st? with
      | some st => exact preservesInvalid_of_maps (preserves_ecPure st)
      | none => exact preservesInvalid_of_maps (preserves_put_with_key oracle _ Option.none)
    · by_cases hst : st ≠ 200
      · rw [if_pos hst]
        exact preservesInvalid_of_maps (preserves_ecPure false)
      · rw [if_neg hst]
        exact preservesInvalid_of_maps (preserves_ecPure true)

theorem preservesInvalid_apiKeyApplyLoop (oracle : String → Option String → Nat)
    (fuel : Nat) (self : Resource) :
    ∀ ks : List (Prov × Resource), PreservesInvalid (apiKeyApplyLoop oracle fuel self ks)
  | [] =>
    preservesInvalid_ecBind (preservesInvalid_of_maps (preserves_resourceKeyStr fuel self))
      (fun key => preservesInvalid_ecBind
        (preservesInvalid_of_maps (preserves_attach oracle fuel self key))
        (fun _ => preservesInvalid_of_maps (preserves_ecPure false)))
  | (p, k) :: rest => by
    refine preservesInvalid_ecBind
      (preservesInvalid_of_maps (preserves_resourceKeyStr fuel k)) (fun kv => ?_)
    refine preservesInvalid_ecBind
      (preservesInvalid_of_maps (preserves_attach oracle fuel self kv)) (fun ok => ?_)
    cases ok with
    | true => exact preservesInvalid_of_maps (preserves_ecPure true)
    | false =>
      simp only [Bool.false_eq_true, if_false]
      refine preservesInvalid_ecBind (preservesInvalid_markInvalid p) (fun _ => ?_)
      intro s a s' p' h hv
      cases hf : alistFind s.existing_resources k.reference with
      | none => simp only [hf] at h; cases h
      | some loc =>
        simp only [hf] at h
        exact preservesInvalid_apiKeyApplyLoop oracle fuel self rest s a s' p' h hv

theorem preservesInvalid_apiKeyApply (oracle : String → Option String → Nat)
    (fuel : Nat) (self : Resource) : PreservesInvalid (apiKeyApply oracle fuel self) := by
  unfold apiKeyApply
  refine preservesInvalid_ecBind
    (preservesInvalid_of_maps (preserves_dictGetItem self.spec (PyKey.str "clientId")))
    (fun cidv => ?_)
  refine preservesInvalid_ecBind
    (preservesInvalid_of_maps (preserves_pyToStr fuel cidv)) (fun cid => ?_)
  refine preservesInvalid_ecBind
    (preservesInvalid_of_maps (preserves_apikeys_for_client fuel (ResourceId.mk "Client" cid)))
    (fun keys => ?_)
  exact preservesInvalid_apiKeyApplyLoop oracle fuel self keys

theorem preservesInvalid_applyDispatch (oracle : String → Option String → Nat)
    (fuel : Nat) (r : Resource) : PreservesInvalid (applyDispatch oracle fuel r) := by
  unfold applyDispatch
  by_cases hk : r.kind == "ApiKey"
  · rw [if_pos hk]
    exact preservesInvalid_apiKeyApply oracle fuel r
  · rw [if_neg hk]
    exact preservesInvalid_resourceApply oracle fuel r

theorem pushLoop_preservesInvalid (oracle : String → Option String → Nat) (fuel : Nat) :
    ∀ (l : List Resource) (s : Ctx) (p : Prov),
      ValidFalseAt s p → ValidFalseAt (pushLoop oracle fuel l s).2.1 p
  | [], _, _, h => h
  | r :: rest, s, p, h => by
    cases hd : applyDispatch oracle fuel r s with
    | error e =>
      simp only [pushLoop, hd]
      exact h
    | ok q =>
      obtain ⟨b, s₁⟩ := q
      simp only [pushLoop, hd]
      exact pushLoop_preservesInvalid oracle fuel rest s₁ p
        (preservesInvalid_applyDispatch oracle fuel r s b s₁ p hd h)

theorem get_resources_by_type_congr {s s' : Ctx} (h : MapsEq s s') (kind : String) :
    get_resources_by_type s' kind = get_resources_by_type s kind := by
  unfold get_resources_by_type
  rw [h.1, h.2]

theorem filterCands_mem (fuel : Nat) (cidStr : String) :
    ∀ (l : List (Prov × Resource)) (s : Ctx) (res : List (Prov × Resource)) (s' : Ctx),
      filterCands fuel cidStr l s = .ok (res, s') →
      ∀ pk ∈ res, pk ∈ l ∧ pk.2.valid = true := by
  intro l
  induction l with
  | nil =>
    intro s res s' h pk hm
    rw [← ok_fst_eq h] at hm
    cases hm
  | cons qk rest ih =>
    obtain ⟨q, k⟩ := qk
    intro s res s' h pk hm
    rw [filterCands] at h
    by_cases hv : !k.valid
    · rw [if_pos hv] at h
      obtain ⟨hmem, hval⟩ := ih s res s' h pk hm
      exact ⟨List.mem_cons_of_mem _ hmem, hval⟩
    · rw [if_neg hv] at h
      have hkv : k.valid = true := by
        cases hkv : k.valid with
        | true => rfl
        | false => rw [hkv] at hv; simp at hv
      obtain ⟨cv, s₁, h₁, h₂⟩ := ecBind_eq_ok.mp h
      obtain ⟨cstr, s₂, h₃, h₄⟩ := ecBind_eq_ok.mp h₂
      by_cases hc : cstr ≠ cidStr
      · rw [if_pos hc] at h₄
        obtain ⟨hmem, hval⟩ := ih s₂ res s' h₄ pk hm
        exact ⟨List.mem_cons_of_mem _ hmem, hval⟩
      · rw [if_neg hc] at h₄
        obtain ⟨_, s₃, h₅, h₆⟩ := ecBind_eq_ok.mp h₄
        obtain ⟨tail, s₄, h₇, h₈⟩ := ecBind_eq_ok.mp h₆
        rw [← ok_fst_eq h₈] at hm
        rcases List.mem_cons.mp hm with hh | ht
        · subst hh
          exact ⟨List.mem_cons_self _ _, hkv⟩
        · obtain ⟨hmem, hval⟩ := ih s₃ tail s₄ h₇ pk ht
          exact ⟨List.mem_cons_of_mem _ hmem, hval⟩

theorem apikeys_mem :
    ∀ (fuel : Nat) (cid : ResourceId) (s : Ctx) (res : List (Prov × Resource)) (s' : Ctx),
      apikeys_for_client fuel cid s = .ok (res, s') →
      ∀ pk ∈ res, pk ∈ get_resources_by_type s "ApiKey" ∧ pk.2.valid = true
  | 0, _, _, _, _, h => by cases h
  | fuel + 1, cid, s, res, s', h => by
    intro pk hm
    obtain ⟨own, s₁, h₁, h₂⟩ := ecBind_eq_ok.mp h
    obtain ⟨pid, s₂, h₃, h₄⟩ := ecBind_eq_ok.mp h₂
    have hms₁ : MapsEq s s₁ :=
      preserves_filterCands fuel cid.id (get_resources_by_type s "ApiKey") s own s₁ h₁
    have hms₂ : MapsEq s₁ s₂ := preserves_get_client_parent_id fuel cid s₁ pid s₂ h₃
    cases pid with
    | none =>
      rw [← ok_fst_eq h₄] at hm
      exact filterCands_mem fuel cid.id (get_resources_by_type s "ApiKey") s own s₁ h₁ pk hm
    | some parent_id =>
      obtain ⟨rest', s₃, h₅, h₆⟩ := ecBind_eq_ok.mp h₄
      rw [← ok_fst_eq h₆] at hm
      rcases List.mem_append.mp hm with hmo | hmr
      · exact filterCands_mem fuel cid.id (get_resources_by_type s "ApiKey") s own s₁ h₁ pk hmo
      · have hrec := apikeys_mem fuel parent_id s₂ rest' s₃ h₅ pk hmr
        rwa [get_resources_by_type_congr (mapsEq_trans hms₁ hms₂)] at hrec

theorem mem_resources_provValid {s : Ctx} {kind : String} {pk : Prov × Resource}
    (hnc : (s.compiled_resources.map Prod.fst).Nodup)
    (hne : (s.existing_resources.map Prod.fst).Nodup)
    (h : pk ∈ get_resources_by_type s kind) :
    provValid s pk.1 = some pk.2.valid := by
  unfold get_resources_by_type at h
  rcases List.mem_append.mp h with h | h
  · obtain ⟨⟨ref, r⟩, hmem, heq⟩ := List.mem_map.mp h
    obtain ⟨hm, -⟩ := List.mem_filter.mp hmem
    cases heq
    dsimp only
    simp only [provValid]
    rw [alistFind_of_nodup hnc hm]
    rfl
  · obtain ⟨⟨ref, loc⟩, hmem, heq⟩ := List.mem_map.mp h
    obtain ⟨hm, -⟩ := List.mem_filter.mp hmem
    cases heq
    dsimp only
    simp only [provValid]
    rw [alistFind_of_nodup hne hm]
    rfl

/-- C7. Credential invalidation is permanent within a run: when the remote
service answers 401 for a credential during `Resource.apply`'s cascade, the
loop continues with that credential's object marked invalid (and the mark is
observable whenever the object is indexed); a marked-invalid credential is
never yielded by any later `apikeys_for_client` search (the indices being
duplicate-free, as Python dicts are); and no later push in the run ever turns
the flag back on — the invalidation survives the whole push loop. -/
theorem c7_rejected_credential_never_offered :
    (∀ (oracle : String → Option String → Nat) (url : String) (fuel : Nat)
      (p : Prov) (k : Resource) (rest : List (Prov × Resource)) (s : Ctx)
      (kv : String) (s₁ : Ctx),
      resourceKeyStr fuel k s = .ok (kv, s₁) →
      oracle url (some kv) = 401 →
      applyKeysLoop oracle url fuel ((p, k) :: rest) s =
        applyKeysLoop oracle url fuel rest
          (markInvalidCtx (recordPut s₁ url (some kv) 401) p) ∧
      ((provValid s₁ p).isSome →
        ValidFalseAt (markInvalidCtx (recordPut s₁ url (some kv) 401) p) p)) ∧
    (∀ (s : Ctx) (p : Prov), ValidFalseAt s p →
      (s.compiled_resources.map Prod.fst).Nodup →
      (s.existing_resources.map Prod.fst).Nodup →
      ∀ (fuel : Nat) (cid : ResourceId) (res : List (Prov × Resource)) (s' : Ctx),
        apikeys_for_client fuel cid s = .ok (res, s') →
        ∀ k, (p, k) ∉ res) ∧
    (∀ (oracle : String → Option String → Nat) (fuel : Nat) (l : List Resource)
      (s : Ctx) (p : Prov), ValidFalseAt s p →
      ValidFalseAt (pushLoop oracle fuel l s).2.1 p) := by
  refine ⟨?_, ?_, ?_⟩
  · intro oracle url fuel p k rest s kv s₁ hk h401
    constructor
    · rw [applyKeysLoop, ecBind_ok hk]
      have hput : put_with_key oracle url (some kv) s₁ =
          .ok (401, recordPut s₁ url (some kv) 401) := by
        unfold put_with_key
        rw [h401]
      rw [ecBind_ok hput, if_neg (by simp), ecBind_ok
        (show markInvalid p (recordPut s₁ url (some kv) 401) =
          .ok ((), markInvalidCtx (recordPut s₁ url (some kv) 401) p) from rfl)]
    · intro hsome
      exact markInvalidCtx_validFalse hsome
  · intro s p hinv hnc hne fuel cid res s' h k hm
    have := (apikeys_mem fuel cid s res s' h (p, k) hm)
    have hpv := mem_resources_provValid hnc hne this.1
    rw [this.2] at hpv
    unfold ValidFalseAt at hinv
    rw [hinv] at hpv
    cases hpv
  · intro oracle fuel l s p h
    exact pushLoop_preservesInvalid oracle fuel l s p h

theorem c7_rejected_credential_never_offered_witness :
    resourceKeyStr 5 c7key c7state = .ok ("secret", c7state) ∧
    c7oracle "http://h/policies/thatone.ai/v1/ApiKey" (some "secret") = 401 ∧
    applyKeysLoop c7oracle "http://h/policies/thatone.ai/v1/ApiKey" 5
        [(Prov.existingAt c7keyRef, c7key)] c7state =
      applyKeysLoop c7oracle "http://h/policies/thatone.ai/v1/ApiKey" 5 []
        (markInvalidCtx
          (recordPut c7state "http://h/policies/thatone.ai/v1/ApiKey" (some "secret") 401)
          (Prov.existingAt c7keyRef)) :=
  ⟨rfl, rfl,
   ((c7_rejected_credential_never_offered.1 c7oracle
      "http://h/policies/thatone.ai/v1/ApiKey" 5 (Prov.existingAt c7keyRef) c7key []
      c7state "secret" c7state rfl rfl).1)⟩

theorem attach_ok_true {oracle : String → Option String → Nat} {fuel : Nat}
    {self : Resource} {ek : String} {s : Ctx} {b : Bool} {s' : Ctx}
    (h : attach_to_client oracle fuel self ek s = .ok (b, s')) : b = true := by
  obtain ⟨config, s₁, h₁, h₂⟩ := ecBind_eq_ok.mp h
  obtain ⟨md, s₂, h₃, h₄⟩ := ecBind_eq_ok.mp h₂
  obtain ⟨nsv, s₃, h₅, h₆⟩ := ecBind_eq_ok.mp h₄
  obtain ⟨url, s₄, h₇, h₈⟩ := ecBind_eq_ok.mp h₆
  obtain ⟨_, s₅, h₉, h₁₀⟩ := ecBind_eq_ok.mp h₈
  exact (ok_fst_eq h₁₀).symm

/-- C10.  `attach_to_client` ignores the remote status entirely: whenever it
returns, it returns `True`, for every transport oracle.  Hence the candidate
loop of `ApiKey.apply` succeeds on the very first attachment attempt (leaving
both resource indices, and so every `valid` flag, untouched), and the
bootstrap branch — reached only when the candidate search yields nothing —
attaches with the key's own value but still returns `False`. -/
theorem c10_attach_semantics :
    (∀ (oracle : String → Option String → Nat) (fuel : Nat) (self : Resource)
      (ek : String) (s : Ctx) (b : Bool) (s' : Ctx),
      attach_to_client oracle fuel self ek s = .ok (b, s') → b = true) ∧
    (∀ (oracle : String → Option String → Nat) (fuel : Nat) (self : Resource)
      (p : Prov) (k : Resource) (rest : List (Prov × Resource)) (s : Ctx)
      (kv : String) (s₁ : Ctx) (b : Bool) (s₂ : Ctx),
      resourceKeyStr fuel k s = .ok (kv, s₁) →
      attach_to_client oracle fuel self kv s₁ = .ok (b, s₂) →
      apiKeyApplyLoop oracle fuel self ((p, k) :: rest) s = .ok (true, s₂) ∧
      MapsEq s s₂) ∧
    (∀ (oracle : String → Option String → Nat) (fuel : Nat) (self : Resource)
      (s : Ctx) (kv : String) (s₁ : Ctx) (b : Bool) (s₂ : Ctx),
      resourceKeyStr fuel self s = .ok (kv, s₁) →
      attach_to_client oracle fuel self kv s₁ = .ok (b, s₂) →
      apiKeyApplyLoop oracle fuel self [] s = .ok (false, s₂)) := by
  refine ⟨?_, ?_, ?_⟩
  · intro oracle fuel self ek s b s' h
    exact attach_ok_true h
  · intro oracle fuel self p k rest s kv s₁ b s₂ hk hat
    have hb : b = true := attach_ok_true hat
    subst hb
    constructor
    · rw [apiKeyApplyLoop, ecBind_ok hk, ecBind_ok hat]
      rfl
    · exact mapsEq_trans (preserves_resourceKeyStr fuel k s kv s₁ hk)
        (preserves_attach oracle fuel self kv s₁ true s₂ hat)
  · intro oracle fuel self s kv s₁ b s₂ hk hat
    rw [apiKeyApplyLoop, ecBind_ok hk, ecBind_ok hat]
    rfl

theorem c10_attach_semantics_witness :
    resourceKeyStr 5 c10cand c10state = .ok ("oldkey", c10state) ∧
    attach_to_client c10oracle 5 c10self "oldkey" c10state = .ok (true, c10after) ∧
    apiKeyApplyLoop c10oracle 5 c10self [(Prov.existingAt c10candRef, c10cand)]
        c10state = .ok (true, c10after) ∧
    MapsEq c10state c10after :=
  ⟨rfl, rfl,
   (c10_attach_semantics.2.1 c10oracle 5 c10self (Prov.existingAt c10candRef) c10cand
      [] c10state "oldkey" c10state true c10after rfl rfl).1,
   (c10_attach_semantics.2.1 c10oracle 5 c10self (Prov.existingAt c10candRef) c10cand
      [] c10state "oldkey" c10state true c10after rfl rfl).2⟩

end Loopctl
